import Mathlib

/-!
Verification development for a TypeScript swagger generator
(SwaggerGenerator / ZodToSwagger / JoiToSwagger / ClassValidatorToSwagger /
ProjectScanner).  The JavaScript/TypeScript code is shallowly embedded:
strings become `List Char`, the regex-based scanners are implemented as
explicit character-list matchers that follow the exact-match semantics of
the specific regular expressions appearing in the source (greedy and lazy
quantifier behaviour worked out per pattern, positions searched left to
right), JS objects with optional keys become structures with `Option`
fields, JS string truthiness (empty string is falsy) is modelled
explicitly, and the file system that the scanner reads is an explicit
association list from resolved paths to file contents.

Note on characters: the braces and quote characters that appear in the
embedded program text are written with hexadecimal escapes
(\x7b = opening brace, \x7d = closing brace, \x27 = single quote,
\x22 = double quote, \x60 = backtick).
-/

/-! ## Character classes and basic list-of-characters utilities -/

/-- JS regex word character class \w = [A-Za-z0-9_]. -/
def isWordChar (c : Char) : Bool :=
  c.isAlpha || c.isDigit || c = '_'

/-- JS whitespace class \s (ASCII part: space, tab, newline, carriage
return, vertical tab, form feed; exotic unicode spaces are not produced
by any input considered here). -/
def isJsSpace (c : Char) : Bool :=
  c = ' ' || c = '\t' || c = '\n' || c = '\r' || c = '\x0b' || c = '\x0c'

/-- The three JS quote characters ' \x22 \x60 (the regexes in the source
accept any of them, on either side). -/
def isQuoteChar (c : Char) : Bool :=
  c = '\x27' || c = '\x22' || c = '\x60'

/-- Convert a string literal to the character list the embedding works on. -/
def strL (s : String) : List Char := s.data

/-- Convert back to a `String`. -/
def asString (l : List Char) : String := ⟨l⟩

/-- Does `l` start with `pat` (JS String.startsWith / an anchored literal
match)? -/
def startsWithL : List Char → List Char → Bool
  | [], _ => true
  | _ :: _, [] => false
  | p :: ps, c :: cs => p = c && startsWithL ps cs

/-- Does `pat` occur contiguously inside `l` (JS String.includes)? -/
def containsL (pat : List Char) : List Char → Bool
  | [] => startsWithL pat []
  | l@(_ :: tl) => startsWithL pat l || containsL pat tl

/-- JS String.trim on the left. -/
def jsTrimL (l : List Char) : List Char := l.dropWhile isJsSpace

/-- JS String.trim on the right. -/
def jsTrimR (l : List Char) : List Char := (l.reverse.dropWhile isJsSpace).reverse

/-- JS String.trim. -/
def jsTrim (l : List Char) : List Char := jsTrimR (jsTrimL l)

/-- JS String.split('\n') (the separator is never kept; a trailing
separator yields a final empty piece, as in JS). -/
def splitNl : List Char → List (List Char)
  | [] => [[]]
  | c :: rest =>
    if c = '\n' then [] :: splitNl rest
    else
      match splitNl rest with
      | h :: t => (c :: h) :: t
      | [] => [[c]]

/-- JS String.split(',') (used on the import item list). -/
def splitComma : List Char → List (List Char)
  | [] => [[]]
  | c :: rest =>
    if c = ',' then [] :: splitComma rest
    else
      match splitComma rest with
      | h :: t => (c :: h) :: t
      | [] => [[c]]

/-- JS Array.join('\n') for a list of lines. -/
def joinNl : List (List Char) → List Char
  | [] => []
  | [l] => l
  | l :: ls => l ++ '\n' :: joinNl ls

/-- JS String.slice(start, stop) (both clamped to the string length). -/
def sliceJs (l : List Char) (start stop : Nat) : List Char :=
  (l.drop start).take (stop - start)

/-- JS String.toUpperCase for the ASCII verbs appearing in the routes. -/
def toUpperL (l : List Char) : List Char := l.map Char.toUpper

/-- Digit-string to number, as parseInt does on an all-digit capture. -/
def digitsToNat (l : List Char) : Nat :=
  l.foldl (fun acc c => acc * 10 + (c.toNat - '0'.toNat)) 0

/-- JS string truthiness of an optional string value: absent and the
empty string are falsy. -/
def truthyS : Option String → Bool
  | none => false
  | some s => !(s == "")

/-- JS object property update `obj[k] = v` on an association list: an
existing key keeps its position and gets the new value, a new key is
appended (JS object insertion order). -/
def insertJs {α : Type} (m : List (List Char × α)) (k : List Char) (v : α) :
    List (List Char × α) :=
  if (m.find? (fun kv => kv.1 = k)).isSome then
    m.map (fun kv => if kv.1 = k then (k, v) else kv)
  else m ++ [(k, v)]

/-- Association lookup keyed by strings (JS Map.get / Map.has). -/
def lookupJs {α : Type} (m : List (String × α)) (k : String) : Option α :=
  (m.find? (fun kv => kv.1 = k)).map (fun kv => kv.2)

/-- JS Map.set: overwrite in place or append. -/
def setJs {α : Type} (m : List (String × α)) (k : String) (v : α) :
    List (String × α) :=
  if (m.find? (fun kv => kv.1 = k)).isSome then
    m.map (fun kv => if kv.1 = k then (k, v) else kv)
  else m ++ [(k, v)]

/-- Left-to-right scan of all non-overlapping matches of a matcher, the
way a JS global regex is iterated with exec: at each position try the
matcher; on success record the match (with its start position) and
continue after the consumed text, otherwise move one character forward.
`matchAt` returns the captures together with the rest of the input after
the match.  The fuel argument is the remaining input length plus one. -/
def scanAllPos {α : Type} (matchAt : List Char → Option (α × List Char)) :
    Nat → Nat → List Char → List (Nat × α)
  | 0, _, _ => []
  | fuel + 1, pos, l =>
    match matchAt l with
    | some (a, rest) =>
      (pos, a) :: scanAllPos matchAt fuel (pos + (l.length - rest.length)) rest
    | none =>
      match l with
      | [] => []
      | _ :: tl => scanAllPos matchAt fuel (pos + 1) tl

/-- All matches of a matcher, without positions. -/
def scanAll {α : Type} (matchAt : List Char → Option (α × List Char))
    (l : List Char) : List α :=
  (scanAllPos matchAt (l.length + 1) 0 l).map (fun pa => pa.2)

/-- First match of a matcher anywhere in the input (JS non-global
String.match: positions are searched left to right). -/
def findFirstMatch {α : Type} (matchAt : List Char → Option α) :
    List Char → Option α
  | [] => matchAt []
  | l@(_ :: tl) =>
    match matchAt l with
    | some a => some a
    | none => findFirstMatch matchAt tl

/-! ## SwaggerGenerator.normalizePath

Source (src/generator.ts, both variants):
`return path.replace(/:(\w+)/g, '\x7b$1\x7d');`
A colon followed by a maximal nonempty run of word characters is replaced
by the run wrapped in braces; everything else is copied unchanged. -/

def normGo : Nat → List Char → List Char
  | 0, l => l
  | _ + 1, [] => []
  | fuel + 1, c :: rest =>
    if c = ':' then
      let w := rest.takeWhile isWordChar
      if w.isEmpty then c :: normGo fuel rest
      else '\x7b' :: (w ++ '\x7d' :: normGo fuel (rest.dropWhile isWordChar))
    else c :: normGo fuel rest

/-- SwaggerGenerator.normalizePath.  The fuel argument of `normGo` starts
at the input length and each step consumes at least one character, so the
fuel never runs out. -/
def normalizePath (path : String) : String :=
  asString (normGo path.data.length path.data)

/-- Is there a colon immediately followed by a word character anywhere in
the list (the situations in which the replacement regex `:(\w+)` can
fire)? -/
def hasParamStart : List Char → Bool
  | [] => false
  | [_] => false
  | c :: d :: rest => (c = ':' && isWordChar d) || hasParamStart (d :: rest)

/-! ## Type-token maps of the three dialect converters

Source (src/validators.ts): `mapZodType`, `mapJoiType`,
`mapClassValidatorType`.  Each is a four-entry lookup table whose misses
fall back to 'string' via `typeMap[t] || 'string'`. -/

def mapZodType (zodType : String) : String :=
  (if zodType = "string" then some "string"
   else if zodType = "number" then some "number"
   else if zodType = "boolean" then some "boolean"
   else if zodType = "date" then some "string"
   else none).getD "string"

def mapJoiType (joiType : String) : String :=
  (if joiType = "string" then some "string"
   else if joiType = "number" then some "number"
   else if joiType = "boolean" then some "boolean"
   else if joiType = "date" then some "string"
   else none).getD "string"

def mapClassValidatorType (cvType : String) : String :=
  (if cvType = "string" then some "string"
   else if cvType = "number" then some "number"
   else if cvType = "boolean" then some "boolean"
   else if cvType = "Date" then some "string"
   else none).getD "string"

/-! ## Canonical schema values produced by the converters

JS objects with optional keys are modelled as structures with `Option`
fields; a `properties` object is an association list in insertion order. -/

structure SwProperty where
  type : String
  format : Option String := none
  minimum : Option Nat := none
  description : Option String := none
  items : Option String := none
deriving DecidableEq, Repr

structure SwSchema where
  type : String
  properties : Option (List (List Char × SwProperty)) := none
  required : Option (List (List Char)) := none
deriving DecidableEq, Repr

/-! ## The small regexes used by the converters

Each matcher implements one concrete regex from src/validators.ts at a
fixed position; `findFirstMatch` turns it into the position search that
JS String.match performs.  Greedy runs whose follower is outside the run
class are exact without backtracking; the lazy patterns are implemented by
trying the quantifier choices in JS preference order. -/

/-- A call-style string argument: the given literal, then any quote, a
nonempty run of non-quote characters, a quote and a closing parenthesis
(regexes `\.describe\(['...]([^'...]+)['...]\)` and
`\.description\(...\)`). -/
def matchCallStrAt (lit : List Char) (l : List Char) : Option (List Char) :=
  if startsWithL lit l then
    match l.drop lit.length with
    | q :: rest =>
      if isQuoteChar q then
        let cap := rest.takeWhile (fun c => !isQuoteChar c)
        if cap.isEmpty then none
        else
          match rest.drop cap.length with
          | q2 :: ')' :: _ => if isQuoteChar q2 then some cap else none
          | _ => none
      else none
    | [] => none
  else none

/-- First `.describe('...')` argument in a modifier chain. -/
def findDescribe (l : List Char) : Option (List Char) :=
  findFirstMatch (matchCallStrAt (strL ".describe(")) l

/-- First `.description('...')` argument in a Joi modifier chain. -/
def findJoiDescription (l : List Char) : Option (List Char) :=
  findFirstMatch (matchCallStrAt (strL ".description(")) l

/-- Regex `\.min\((\d+)\)`. -/
def matchMinAt (l : List Char) : Option Nat :=
  if startsWithL (strL ".min(") l then
    let rest := l.drop 5
    let ds := rest.takeWhile Char.isDigit
    if ds.isEmpty then none
    else
      match rest.drop ds.length with
      | ')' :: _ => some (digitsToNat ds)
      | _ => none
  else none

/-- First `.min(n)` argument in a modifier chain. -/
def findMinNum (l : List Char) : Option Nat :=
  findFirstMatch matchMinAt l

/-- Regex `\/\/\s*(.+)$` at a fixed position: two slashes, greedy
whitespace (backtracking until the rest is a nonempty capture reaching
the end of the line). -/
def matchInlineAt (l : List Char) : Option (List Char) :=
  match l with
  | '/' :: '/' :: rest =>
    if rest.isEmpty then none
    else
      let maxW := (rest.takeWhile isJsSpace).length
      (List.range (maxW + 1)).findSome? (fun k =>
        let cap := rest.drop (maxW - k)
        if cap.isEmpty then none
        else if cap.all (fun c => c ≠ '\r') then some cap else none)
  | _ => none

/-- First trailing-comment capture in a line. -/
def findInline (l : List Char) : Option (List Char) :=
  findFirstMatch matchInlineAt l

/-- Closing part `\s*\*\*?\/` of the JSDoc comment regex. -/
def jsdocCloser (m : List Char) : Bool :=
  match m.dropWhile isJsSpace with
  | '*' :: '*' :: '/' :: _ => true
  | '*' :: '/' :: _ => true
  | _ => false

/-- Regex `\/\*\*\s*(.+?)\s*\*\*?\/` at a fixed position: the leading
whitespace run is greedy (longest first), the capture is lazy (shortest
first). -/
def matchJsdocAt (l : List Char) : Option (List Char) :=
  match l with
  | '/' :: '*' :: '*' :: rest =>
    let maxW := (rest.takeWhile isJsSpace).length
    (List.range (maxW + 1)).findSome? (fun k =>
      let r2 := rest.drop (maxW - k)
      (List.range r2.length).findSome? (fun j =>
        let cap := r2.take (j + 1)
        if cap.all (fun c => c ≠ '\n' && c ≠ '\r') && jsdocCloser (r2.drop (j + 1))
        then some cap else none))
  | _ => none

/-- First JSDoc capture in a line. -/
def findJsdoc (l : List Char) : Option (List Char) :=
  findFirstMatch matchJsdocAt l

/-- Closing part `\s*\*\/` of the block comment regex. -/
def blockCloser (m : List Char) : Bool :=
  match m.dropWhile isJsSpace with
  | '*' :: '/' :: _ => true
  | _ => false

/-- Regex `\/\*\s*(.+?)\s*\*\/` at a fixed position. -/
def matchBlockAt (l : List Char) : Option (List Char) :=
  match l with
  | '/' :: '*' :: rest =>
    let maxW := (rest.takeWhile isJsSpace).length
    (List.range (maxW + 1)).findSome? (fun k =>
      let r2 := rest.drop (maxW - k)
      (List.range r2.length).findSome? (fun j =>
        let cap := r2.take (j + 1)
        if cap.all (fun c => c ≠ '\n' && c ≠ '\r') && blockCloser (r2.drop (j + 1))
        then some cap else none))
  | _ => none

/-- First block comment capture in a line. -/
def findBlock (l : List Char) : Option (List Char) :=
  findFirstMatch matchBlockAt l

/-- The property-line regex `(\w+):\s*z\.(\w+)\(\)(.*)` (and its Joi twin
with `Joi\.` in place of `z\.`), at a fixed position: a nonempty word
run, a colon, whitespace, the builder entry literal `pre`, a nonempty
word run, an empty call `()`, and the rest of the line as modifiers. -/
def matchFieldAt (pre : List Char) (l : List Char) :
    Option (List Char × List Char × List Char) :=
  let w := l.takeWhile isWordChar
  if w.isEmpty then none
  else
    match l.dropWhile isWordChar with
    | ':' :: r2 =>
      let r3 := r2.dropWhile isJsSpace
      if startsWithL pre r3 then
        let r4 := r3.drop pre.length
        let bt := r4.takeWhile isWordChar
        if bt.isEmpty then none
        else
          match r4.dropWhile isWordChar with
          | '(' :: ')' :: rest => some (w, bt, rest)
          | _ => none
      else none
    | _ => none

/-- Position search for the property-line regex. -/
def findFieldMatch (pre : List Char) : List Char → Option (List Char × List Char × List Char)
  | [] => none
  | l@(_ :: tl) =>
    match matchFieldAt pre l with
    | some r => some r
    | none => findFieldMatch pre tl

/-! ## ZodToSwagger (src/validators.ts lines 1-88) -/

/-- Per-field description choice of `parseZodObject` (lines 32-62 of
src/validators.ts), in source order: the `.describe` capture first; the
trailing same-line comment if the current description is falsy; then, if
a previous line exists and the description is still falsy, the previous
line's JSDoc comment, else its block comment. -/
def zodPropertyDescription (mods tline : List Char) (prev : Option (List Char)) :
    Option String :=
  let d1 : Option String := (findDescribe mods).map asString
  let d2 : Option String :=
    match findInline tline with
    | some cap => if truthyS d1 then d1 else some (asString (jsTrim cap))
    | none => d1
  match prev with
  | none => d2
  | some pl =>
    if truthyS d2 then d2
    else
      let pt := jsTrim pl
      match findJsdoc pt with
      | some j => some (asString j)
      | none =>
        match findBlock pt with
        | some b => some (asString b)
        | none => d2

/-- The property object built for one matched Zod field line. -/
def zodMkProperty (baseType mods tline : List Char) (prev : Option (List Char)) :
    SwProperty :=
  { type := mapZodType (asString baseType)
    format := if containsL (strL ".email()") mods then some "email" else none
    minimum := findMinNum mods
    description := zodPropertyDescription mods tline prev
    items := none }

/-- The line loop of `parseZodObject`: lines are trimmed; empty lines and
lines starting with two slashes are skipped; each line matching the
property regex contributes one property, and its name is pushed on the
required list unless the modifiers contain `.optional()`. -/
def zodLoop : List (List Char) → Option (List Char) →
    List (List Char × SwProperty) → List (List Char) →
    (List (List Char × SwProperty) × List (List Char))
  | [], _, props, req => (props, req)
  | line :: rest, prev, props, req =>
    let t := jsTrim line
    if t.isEmpty || startsWithL (strL "//") t then
      zodLoop rest (some line) props req
    else
      match findFieldMatch (strL "z.") t with
      | none => zodLoop rest (some line) props req
      | some (name, baseType, mods) =>
        let property := zodMkProperty baseType mods t prev
        let props' := insertJs props name property
        let req' := if containsL (strL ".optional()") mods then req else req ++ [name]
        zodLoop rest (some line) props' req'

/-- The content between the first opening brace and the first closing
brace after it (regex `\{([\s\S]*?)\}`). -/
def braceCapture (l : List Char) : Option (List Char) :=
  match l.dropWhile (fun c => c ≠ '\x7b') with
  | [] => none
  | _ :: rest =>
    if (rest.dropWhile (fun c => c ≠ '\x7d')).isEmpty then none
    else some (rest.takeWhile (fun c => c ≠ '\x7d'))

/-- ZodToSwagger.parseZodObject. -/
def parseZodObject (l : List Char) : SwSchema :=
  match braceCapture l with
  | none => { type := "object", properties := some [], required := none }
  | some propsString =>
    let allLines := splitNl propsString
    let pr := zodLoop allLines none [] []
    { type := "object", properties := some pr.1,
      required := if pr.2.isEmpty then none else some pr.2 }

namespace ZodToSwagger

/-- ZodToSwagger.convert. -/
def convert (zodSchema : String) : SwSchema :=
  if containsL (strL "z.object(") zodSchema.data then parseZodObject zodSchema.data
  else { type := "object", properties := none, required := none }

end ZodToSwagger

/-! ## JoiToSwagger (src/validators.ts lines 90-174) -/

/-- Per-field description choice of `parseJoiObject` (lines 120-148): the
`.description` capture first, then the trailing same-line comment, then
the previous line's JSDoc comment (no block comment fallback in the Joi
dialect). -/
def joiPropertyDescription (mods tline : List Char) (prev : Option (List Char)) :
    Option String :=
  let d1 : Option String := (findJoiDescription mods).map asString
  let d2 : Option String :=
    match findInline tline with
    | some cap => if truthyS d1 then d1 else some (asString (jsTrim cap))
    | none => d1
  match prev with
  | none => d2
  | some pl =>
    if truthyS d2 then d2
    else
      match findJsdoc (jsTrim pl) with
      | some j => some (asString j)
      | none => d2

/-- Regex `\.items\(Joi\.(\w+)\(\)\)`. -/
def matchJoiItemsAt (l : List Char) : Option (List Char) :=
  if startsWithL (strL ".items(Joi.") l then
    let rest := l.drop 11
    let w := rest.takeWhile isWordChar
    if w.isEmpty then none
    else
      match rest.drop w.length with
      | '(' :: ')' :: ')' :: _ => some w
      | _ => none
  else none

/-- Item type recovered from the first `.items(Joi.t())` in a modifier
chain. -/
def findJoiItems (mods : List Char) : Option String :=
  (findFirstMatch matchJoiItemsAt mods).map (fun t => mapJoiType (asString t))

/-- The property object built for one matched Joi field line. -/
def joiMkProperty (baseType mods tline : List Char) (prev : Option (List Char)) :
    SwProperty :=
  let isArray := baseType = strL "array" && containsL (strL ".items(") mods
  { type := mapJoiType (asString baseType)
    format := none
    minimum := none
    description := joiPropertyDescription mods tline prev
    items := if isArray then findJoiItems mods else none }

/-- The line loop of `parseJoiObject`: the required list gets the fields
whose modifiers contain `.required()`. -/
def joiLoop : List (List Char) → Option (List Char) →
    List (List Char × SwProperty) → List (List Char) →
    (List (List Char × SwProperty) × List (List Char))
  | [], _, props, req => (props, req)
  | line :: rest, prev, props, req =>
    let t := jsTrim line
    if t.isEmpty || startsWithL (strL "//") t then
      joiLoop rest (some line) props req
    else
      match findFieldMatch (strL "Joi.") t with
      | none => joiLoop rest (some line) props req
      | some (name, baseType, mods) =>
        let property := joiMkProperty baseType mods t prev
        let props' := insertJs props name property
        let req' := if containsL (strL ".required()") mods then req ++ [name] else req
        joiLoop rest (some line) props' req'

/-- JoiToSwagger.parseJoiObject. -/
def parseJoiObject (l : List Char) : SwSchema :=
  match braceCapture l with
  | none => { type := "object", properties := some [], required := none }
  | some propsString =>
    let allLines := splitNl propsString
    let pr := joiLoop allLines none [] []
    { type := "object", properties := some pr.1,
      required := if pr.2.isEmpty then none else some pr.2 }

namespace JoiToSwagger

/-- JoiToSwagger.convert. -/
def convert (joiSchema : String) : SwSchema :=
  if containsL (strL "Joi.object(") joiSchema.data then parseJoiObject joiSchema.data
  else { type := "object", properties := none, required := none }

end JoiToSwagger

/-! ## ClassValidatorToSwagger (src/validators.ts lines 176-261) -/

/-- Regex `(\w+)\s*[?:]\s*(\w+)` at a fixed position: a property name, an
optional-marker or colon character, and a type word. -/
def matchCvPropAt (l : List Char) : Option (List Char × List Char) :=
  let w := l.takeWhile isWordChar
  if w.isEmpty then none
  else
    match (l.dropWhile isWordChar).dropWhile isJsSpace with
    | c :: r2 =>
      if c = '?' || c = ':' then
        let r3 := r2.dropWhile isJsSpace
        let w2 := r3.takeWhile isWordChar
        if w2.isEmpty then none else some (w, w2)
      else none
    | [] => none

/-- Position search for the class property regex. -/
def findCvProp (l : List Char) : Option (List Char × List Char) :=
  findFirstMatch matchCvPropAt l

/-- Regex `@Min\((\d+)\)`. -/
def matchCvMinAt (l : List Char) : Option Nat :=
  if startsWithL (strL "@Min(") l then
    let rest := l.drop 5
    let ds := rest.takeWhile Char.isDigit
    if ds.isEmpty then none
    else
      match rest.drop ds.length with
      | ')' :: _ => some (digitsToNat ds)
      | _ => none
  else none

/-- Regex `@ApiProperty\(\{[^}]*description:\s*['...]([^'...]+)['...]` at a
fixed position.  The greedy `[^}]*` run is tried longest first, as JS
backtracking does. -/
def matchApiPropertyAt (l : List Char) : Option (List Char) :=
  if startsWithL (strL "@ApiProperty(\x7b") l then
    let rest := l.drop 14
    let maxJ := (rest.takeWhile (fun c => c ≠ '\x7d')).length
    (List.range (maxJ + 1)).findSome? (fun k =>
      let j := maxJ - k
      if startsWithL (strL "description:") (rest.drop j) then
        let r3 := ((rest.drop j).drop 12).dropWhile isJsSpace
        match r3 with
        | q :: r4 =>
          if isQuoteChar q then
            let cap := r4.takeWhile (fun c => !isQuoteChar c)
            if cap.isEmpty then none
            else
              match r4.drop cap.length with
              | q2 :: _ => if isQuoteChar q2 then some cap else none
              | [] => none
          else none
        | [] => none
      else none)
  else none

/-- The property object built for one decorator-line/property-line pair in
`parseClassValidator` (src/validators.ts lines 195-234).  `i` is the index
of the decorator line in the filtered line list and `prev` the line before
it. -/
def cvMkProperty (i : Nat) (decoratorLine propertyLine ty : List Char)
    (prev : Option (List Char)) : SwProperty :=
  let baseType := mapClassValidatorType (asString ty)
  let isArray := containsL (strL "@IsArray") decoratorLine
  let d1 : Option String := (findFirstMatch matchApiPropertyAt decoratorLine).map asString
  let d2 : Option String :=
    match findInline propertyLine with
    | some cap => if truthyS d1 then d1 else some (asString (jsTrim cap))
    | none => d1
  let d3 : Option String :=
    if 1 < i then
      match prev with
      | some pl =>
        if truthyS d2 then d2
        else
          match findJsdoc pl with
          | some j => some (asString j)
          | none => d2
      | none => d2
    else d2
  { type := if isArray then "array" else baseType
    format := if containsL (strL "@IsEmail") decoratorLine then some "email" else none
    minimum :=
      if containsL (strL "@Min(") decoratorLine then findFirstMatch matchCvMinAt decoratorLine
      else none
    description := d3
    items := if isArray then some "string" else none }

/-- The line loop of `parseClassValidator`: the (already trimmed and
filtered) lines are walked with a one-line lookahead; a line containing
an at-sign whose successor matches the property regex contributes one
property. -/
def cvLoop : Nat → Option (List Char) → List (List Char) →
    List (List Char × SwProperty) → List (List Char) →
    (List (List Char × SwProperty) × List (List Char))
  | _, _, [], props, req => (props, req)
  | _, _, [_], props, req => (props, req)
  | i, prev, line :: next :: rest, props, req =>
    if containsL (strL "@") line then
      match findCvProp next with
      | none => cvLoop (i + 1) (some line) (next :: rest) props req
      | some (name, ty) =>
        let isOptional := containsL (strL "?") next
        let property := cvMkProperty i line next ty prev
        let props' := insertJs props name property
        let req' :=
          if !isOptional && !containsL (strL "@IsOptional") line then req ++ [name] else req
        cvLoop (i + 1) (some line) (next :: rest) props' req'
    else cvLoop (i + 1) (some line) (next :: rest) props req

/-- ClassValidatorToSwagger.parseClassValidator. -/
def parseClassValidator (l : List Char) : SwSchema :=
  let lines := ((splitNl l).map jsTrim).filter (fun x => !x.isEmpty)
  let pr := cvLoop 0 none lines [] []
  { type := "object", properties := some pr.1,
    required := if pr.2.isEmpty then none else some pr.2 }

namespace ClassValidatorToSwagger

/-- ClassValidatorToSwagger.convert. -/
def convert (classSchema : String) : SwSchema :=
  parseClassValidator classSchema.data

end ClassValidatorToSwagger

/-! ## The route data model (src/types.ts) -/

/-- The closed union 'zod' | 'joi' | 'class-validator'. -/
inductive VKind where
  | zod
  | joi
  | cv
deriving DecidableEq, Repr

/-- ValidationSchema of src/types.ts: the schema texts attached to one
route, keyed by request slot.  Absent keys are `none`. -/
structure ValidationSchema where
  type : VKind
  body : Option String := none
  query : Option String := none
  params : Option String := none
  headers : Option String := none
  responses : Option (List (String × Option String)) := none
deriving DecidableEq, Repr

/-- RouteInfo of src/types.ts (the fields the core reads). -/
structure RouteInfo where
  method : String
  path : String
  handler : String
  validation : Option ValidationSchema := none
deriving DecidableEq, Repr

/-! ## SwaggerGenerator request-body construction (src/generator.ts) -/

/-- SwaggerGenerator.convertValidationToSchema: dispatch on the dialect
tag.  The TS fall-through default is unreachable because the tag type is
the closed three-way union. -/
def convertValidationToSchema (validation : String) (type : VKind) : SwSchema :=
  match type with
  | VKind.zod => ZodToSwagger.convert validation
  | VKind.joi => JoiToSwagger.convert validation
  | VKind.cv => ClassValidatorToSwagger.convert validation

/-- The requestBody value attached to an operation. -/
structure RequestBody where
  required : Bool
  schema : SwSchema
deriving DecidableEq, Repr

/-- The requestBody fragment of SwaggerGenerator.addRouteToSpec (identical
in both variants of src/generator.ts, lines 66-77 and 226-237):
`if (route.validation?.body && ['POST', 'PUT', 'PATCH'].includes(route.method))`
then an operation requestBody is built from the body schema text;
otherwise the operation has no requestBody.  JS string truthiness makes an
empty body text falsy. -/
def addRouteRequestBody (route : RouteInfo) : Option RequestBody :=
  match route.validation with
  | none => none
  | some v =>
    match v.body with
    | none => none
    | some b =>
      if (!(b == "")) && (["POST", "PUT", "PATCH"].contains route.method) then
        some { required := true, schema := convertValidationToSchema b v.type }
      else none

/-! ## ProjectScanner (src/unnamed/part_001)

The scanner reads files through fs.readFileSync/fs.existsSync; the file
system is modelled as an explicit association list from resolved absolute
paths to file contents.  The external `glob` library call that enumerates
the files of a scan path is an external collaborator and is supplied as
an oracle parameter `globFn`. -/

/-- The modelled file system. -/
abbrev Env := List (String × List Char)

/-- fs lookup (readFileSync content, existsSync via `isSome`). -/
def lookupEnv (env : Env) (p : String) : Option (List Char) := lookupJs env p

/-- JS String.split('/'), used by the POSIX path model. -/
def splitSlash : List Char → List (List Char)
  | [] => [[]]
  | c :: rest =>
    if c = '/' then [] :: splitSlash rest
    else
      match splitSlash rest with
      | h :: t => (c :: h) :: t
      | [] => [[c]]

/-- Join path segments with slashes. -/
def joinSlash : List (List Char) → List Char
  | [] => []
  | [s] => s
  | s :: rest => s ++ '/' :: joinSlash rest

/-- Normalize path segments: empty and `.` segments vanish, `..` pops
(and is a no-op at the root), as in Node's path.resolve. -/
def normSegs : List (List Char) → List (List Char) → List (List Char)
  | acc, [] => acc.reverse
  | acc, s :: rest =>
    if s.isEmpty || s = strL "." then normSegs acc rest
    else if s = strL ".." then normSegs (acc.drop 1) rest
    else normSegs (s :: acc) rest

/-- Node path.dirname for the slash-separated file paths the scanner
handles (absolute paths without a trailing slash). -/
def dirnameStr (p : String) : String :=
  match p.data.reverse.dropWhile (fun c => c ≠ '/') with
  | [] => "."
  | [_] => "/"
  | _ :: rest => asString rest.reverse

/-- Node path.resolve(dir, rel) for an absolute `dir`: an absolute `rel`
stands alone, otherwise it is appended to `dir`, and the `.`/`..`/empty
segments are normalized away. -/
def resolvePath (dir rel : String) : String :=
  let base := if startsWithL (strL "/") rel.data then rel.data else dir.data ++ '/' :: rel.data
  asString ('/' :: joinSlash (normSegs [] (splitSlash base)))

/-- Regex `import\s*\{([^}]+)\}\s*from\s*['...]([^'...]+)['...]` at a fixed
position; returns the item list and path captures and the remainder. -/
def matchImportAt (l : List Char) : Option ((List Char × List Char) × List Char) :=
  if startsWithL (strL "import") l then
    match (l.drop 6).dropWhile isJsSpace with
    | '\x7b' :: r2 =>
      let items := r2.takeWhile (fun c => c ≠ '\x7d')
      if items.isEmpty then none
      else
        match r2.drop items.length with
        | '\x7d' :: r3 =>
          let r4 := r3.dropWhile isJsSpace
          if startsWithL (strL "from") r4 then
            match (r4.drop 4).dropWhile isJsSpace with
            | q :: r6 =>
              if isQuoteChar q then
                let p := r6.takeWhile (fun c => !isQuoteChar c)
                if p.isEmpty then none
                else
                  match r6.drop p.length with
                  | q2 :: rest => if isQuoteChar q2 then some ((items, p), rest) else none
                  | [] => none
              else none
            | [] => none
          else none
        | _ => none
    | _ => none
  else none

/-- ProjectScanner.extractImports: every braced import contributes one
map entry per comma-separated (trimmed) item, later writes overwriting
earlier ones. -/
def extractImports (content : List Char) : List (String × String) :=
  (scanAll matchImportAt content).foldl
    (fun m itemsPath =>
      (splitComma itemsPath.1).foldl
        (fun m item => setJs m (asString (jsTrim item)) (asString itemsPath.2)) m)
    []

/-- Brace counting over one line, continuing a running count (the
`foundOpenBrace`/`braceCount` loop body of findSchemaDefinition). -/
def countBraces (l : List Char) (cnt : Int) (found : Bool) : Int × Bool :=
  l.foldl
    (fun st c =>
      if c = '\x7b' then (st.1 + 1, true)
      else if c = '\x7d' then (st.1 - 1, st.2)
      else st)
    (cnt, found)

/-- Collect lines until the braces opened since the start line are closed
again; an unbalanced tail keeps every remaining line, as the JS loop
does. -/
def collectBraced : List (List Char) → Int → Bool → List (List Char)
  | [], _, _ => []
  | l :: rest, cnt, found =>
    let st := countBraces l cnt found
    if st.2 && st.1 == 0 then [l] else l :: collectBraced rest st.1 st.2

/-- Balanced-parenthesis span: consumes until the depth (starting as
given, after an already-consumed opening parenthesis) returns to zero,
including the closing parenthesis; `none` if the input ends first. -/
def parenSpan : List Char → Int → Option (List Char)
  | [], _ => none
  | c :: rest, depth =>
    let d := if c = '(' then depth + 1 else if c = ')' then depth - 1 else depth
    if d == 0 then some [c]
    else (parenSpan rest d).map (fun t => c :: t)

/-- Suffix of `l` starting at the first occurrence of `key`
(JS String.indexOf). -/
def dropToSub (key : List Char) : List Char → Option (List Char)
  | [] => if startsWithL key [] then some [] else none
  | l@(_ :: tl) => if startsWithL key l then some l else dropToSub key tl

/-- From the first occurrence of `key` (`z.object(` or `Joi.object(`),
skip to the first opening parenthesis and take the
parenthesis-balanced span (the objectStart/objectEnd scan of
findSchemaDefinition). -/
def extractObjectDef (schemaText : List Char) (key : List Char) : Option (List Char) :=
  match dropToSub key schemaText with
  | none => none
  | some tail =>
    let pre := tail.takeWhile (fun c => c ≠ '(')
    match tail.dropWhile (fun c => c ≠ '(') with
    | '(' :: rest =>
      match parenSpan rest 1 with
      | some consumed => some (pre ++ '(' :: consumed)
      | none => none
    | _ => none

/-- The line search of ProjectScanner.findSchemaDefinition: the first line
containing `const name =` fixes the start (dialect zod/joi read off the
same line, otherwise null), and a line containing `class name` fixes a
class-validator start.  Returns the line suffix from the start line. -/
def findSchemaStart (name : String) : List (List Char) → Option (List (List Char) × Option VKind)
  | [] => none
  | line :: rest =>
    if containsL (strL "const " ++ name.data ++ strL " =") line then
      some (line :: rest,
        if containsL (strL "z.object") line then some VKind.zod
        else if containsL (strL "Joi.object") line then some VKind.joi
        else none)
    else if containsL (strL "class " ++ name.data) line then
      some (line :: rest, some VKind.cv)
    else findSchemaStart name rest

/-- ProjectScanner.extractClassValidation: collect the brace-balanced
class body lines and keep them verbatim as the schema text. -/
def extractClassValidation (linesFrom : List (List Char)) : ValidationSchema :=
  { type := VKind.cv, body := some (asString (joinNl (collectBraced linesFrom 0 false))) }

/-- ProjectScanner.findSchemaDefinition (src/unnamed/part_001 lines
230-322). -/
def findSchemaDefinition (content : List Char) (schemaName : String) :
    Option ValidationSchema :=
  match findSchemaStart schemaName (splitNl content) with
  | none => none
  | some (_, none) => none
  | some (linesFrom, some VKind.cv) => some (extractClassValidation linesFrom)
  | some (linesFrom, some k) =>
    let schemaText := joinNl (collectBraced linesFrom 0 false)
    let key := if k = VKind.zod then strL "z.object(" else strL "Joi.object("
    match extractObjectDef schemaText key with
    | some objectDef => some { type := k, body := some (asString objectDef) }
    | none => none

/-- ProjectScanner.loadExternalSchemaSync (identical text in both scanner
variants): resolve the import path against the importing file's
directory with a `.ts` extension, and look the name up in that file;
a missing file is `undefined`, and no further import edge is followed. -/
def loadExternalSchemaSync (env : Env) (schemaName : String) (importPath : String)
    (currentFilePath : String) : Option ValidationSchema :=
  let resolvedPath := resolvePath (dirnameStr currentFilePath) (importPath ++ ".ts")
  match lookupEnv env resolvedPath with
  | none => none
  | some externalContent => findSchemaDefinition externalContent schemaName

/-- JS `schemaName.replace(/^T/, '')`. -/
def stripLeadingT (s : String) : String :=
  match s.data with
  | 'T' :: rest => asString rest
  | _ => s

/-- JS `schemaName.startsWith('T')`. -/
def startsWithT (s : String) : Bool := startsWithL (strL "T") s.data

/-- ProjectScanner.resolveSchema (src/unnamed/part_001 lines 192-214):
the local file first, then the import table, then — only for names with
a leading `T` — the stripped name with the `Schema` suffix, again local
first and then through the import table. -/
def resolveSchema (env : Env) (schemaName : String) (content : List Char)
    (imports : List (String × String)) (filePath : String) : Option ValidationSchema :=
  match findSchemaDefinition content schemaName with
  | some s => some s
  | none =>
    let viaImport :=
      match lookupJs imports schemaName with
      | some importPath => loadExternalSchemaSync env schemaName importPath filePath
      | none => none
    match viaImport with
    | some s => some s
    | none =>
      if startsWithT schemaName then
        let schemaVariant := stripLeadingT schemaName ++ "Schema"
        match findSchemaDefinition content schemaVariant with
        | some s => some s
        | none =>
          match lookupJs imports schemaVariant with
          | some importPath => loadExternalSchemaSync env schemaVariant importPath filePath
          | none => none
      else none

/-- The scanner's mutable instance state is just `this.routes`; the
state-passing form of resolveSchema makes explicit that resolution
neither reads nor writes it. -/
def resolveSchemaS (env : Env) (schemaName : String) (content : List Char)
    (imports : List (String × String)) (filePath : String) (s : List RouteInfo) :
    Option ValidationSchema × List RouteInfo :=
  (resolveSchema env schemaName content imports filePath, s)

/-- Regex `(\w+(?:Schema|Dto))` (and `(\w+Schema)`) at a fixed position:
a nonempty word run tried greedily (longest first) whose remainder starts
with one of the suffixes, tried in alternation order. -/
def matchWordSuffixAt (sufs : List (List Char)) (l : List Char) : Option (List Char) :=
  let run := (l.takeWhile isWordChar).length
  (List.range run).findSome? (fun k =>
    let j := run - k
    sufs.findSome? (fun suf =>
      if startsWithL suf (l.drop j) then some (l.take (j + suf.length)) else none))

/-- First schema-or-DTO-like identifier in a middleware argument
(regex `(\w+(?:Schema|Dto))`). -/
def extractSchemaRef (middleware : List Char) : Option (List Char) :=
  findFirstMatch (matchWordSuffixAt [strL "Schema", strL "Dto"]) middleware

/-- First schema-like identifier in a context window
(regex `(\w+Schema)`). -/
def extractSchemaVar (window : List Char) : Option (List Char) :=
  findFirstMatch (matchWordSuffixAt [strL "Schema"]) window

/-- ProjectScanner.extractValidationFromMiddleware (src/unnamed/part_001
lines 110-127): no schema-like identifier means no validation; otherwise
the local file is tried, then the import table — and a failed resolution
is `undefined`, not an error. -/
def extractValidationFromMiddleware (env : Env) (content : List Char)
    (middleware : List Char) (imports : List (String × String)) (filePath : String) :
    Option ValidationSchema :=
  match extractSchemaRef middleware with
  | none => none
  | some nameL =>
    let schemaName := asString nameL
    match findSchemaDefinition content schemaName with
    | some v => some v
    | none =>
      match lookupJs imports schemaName with
      | some importPath => loadExternalSchemaSync env schemaName importPath filePath
      | none => none

/-- The HTTP verb alternation `(get|post|put|delete|patch)` at a fixed
position, in the alternation order of the source regexes. -/
def matchVerbAt (l : List Char) : Option (List Char × List Char) :=
  if startsWithL (strL "get") l then some (strL "get", l.drop 3)
  else if startsWithL (strL "post") l then some (strL "post", l.drop 4)
  else if startsWithL (strL "put") l then some (strL "put", l.drop 3)
  else if startsWithL (strL "delete") l then some (strL "delete", l.drop 6)
  else if startsWithL (strL "patch") l then some (strL "patch", l.drop 5)
  else none

/-- One Express route registration match. -/
structure ExpressMatch where
  method : List Char
  routePath : List Char
  middleware : List Char
  handler : Option (List Char)
deriving DecidableEq, Repr

/-- Regex
`(?:router|app)\.(get|post|put|delete|patch)\s*\(\s*['...]([^'...]+)['...]\s*,\s*([^,)]+)(?:,\s*([^)]+))?\)`
at a fixed position.  The optional fourth group is taken when a comma
follows the third capture and a closing parenthesis eventually follows a
nonempty run of non-parenthesis characters; otherwise the parenthesis
must close directly. -/
def matchExpressAt (l : List Char) : Option (ExpressMatch × List Char) :=
  let recv :=
    if startsWithL (strL "router.") l then some (l.drop 7)
    else if startsWithL (strL "app.") l then some (l.drop 4)
    else none
  match recv with
  | none => none
  | some r1 =>
    match matchVerbAt r1 with
    | none => none
    | some (verb, r2) =>
      match r2.dropWhile isJsSpace with
      | '(' :: r4 =>
        match r4.dropWhile isJsSpace with
        | q :: r6 =>
          if isQuoteChar q then
            let p := r6.takeWhile (fun c => !isQuoteChar c)
            if p.isEmpty then none
            else
              match r6.drop p.length with
              | q2 :: r7 =>
                if isQuoteChar q2 then
                  match r7.dropWhile isJsSpace with
                  | ',' :: r9 =>
                    let r10 := r9.dropWhile isJsSpace
                    let mw := r10.takeWhile (fun c => c ≠ ',' && c ≠ ')')
                    if mw.isEmpty then none
                    else
                      match r10.drop mw.length with
                      | ')' :: r11 =>
                        some ({ method := verb, routePath := p, middleware := mw,
                                handler := none }, r11)
                      | ',' :: r11 =>
                        let r12 := r11.dropWhile isJsSpace
                        let h := r12.takeWhile (fun c => c ≠ ')')
                        if h.isEmpty then none
                        else
                          match r12.drop h.length with
                          | ')' :: r13 =>
                            some ({ method := verb, routePath := p, middleware := mw,
                                    handler := some h }, r13)
                          | _ => none
                      | _ => none
                  | _ => none
                else none
              | [] => none
          else none
        | [] => none
      | _ => none

/-- All Express route matches of a file, in source order. -/
def expressMatches (content : List Char) : List ExpressMatch :=
  scanAll matchExpressAt content

/-- The RouteInfo pushed for one Express match: upper-cased method, the
raw path, the trimmed handler-or-middleware text, and the validation
extracted from the middleware argument. -/
def mkExpressRoute (env : Env) (content : List Char) (filePath : String)
    (imports : List (String × String)) (m : ExpressMatch) : RouteInfo :=
  { method := asString (toUpperL m.method)
    path := asString m.routePath
    handler := asString (jsTrim (match m.handler with | some h => h | none => m.middleware))
    validation := extractValidationFromMiddleware env content m.middleware imports filePath }

/-- ProjectScanner.scanExpressRoutes (src/unnamed/part_001 lines 48-65):
one RouteInfo per regex match, in match order. -/
def scanExpressRoutes (env : Env) (content : List Char) (filePath : String)
    (imports : List (String × String)) : List RouteInfo :=
  (expressMatches content).map (mkExpressRoute env content filePath imports)

/-- Regex
`fastify\.(get|post|put|delete|patch)\s*\(\s*['...]([^'...]+)['...]\s*,?\s*(\x7b[^\x7d]*\x7d)?`
at a fixed position; the optional options-object group only affects how
much text the match consumes. -/
def matchFastifyAt (l : List Char) : Option ((List Char × List Char) × List Char) :=
  if startsWithL (strL "fastify.") l then
    match matchVerbAt (l.drop 8) with
    | none => none
    | some (verb, r2) =>
      match r2.dropWhile isJsSpace with
      | '(' :: r4 =>
        match r4.dropWhile isJsSpace with
        | q :: r6 =>
          if isQuoteChar q then
            let p := r6.takeWhile (fun c => !isQuoteChar c)
            if p.isEmpty then none
            else
              match r6.drop p.length with
              | q2 :: r7 =>
                if isQuoteChar q2 then
                  let r8 := r7.dropWhile isJsSpace
                  let r9 := match r8 with
                    | ',' :: t => t.dropWhile isJsSpace
                    | _ => r8
                  let r10 := match r9 with
                    | '\x7b' :: t =>
                      (match t.drop (t.takeWhile (fun c => c ≠ '\x7d')).length with
                       | '\x7d' :: r => r
                       | _ => r9)
                    | _ => r9
                  some ((verb, p), r10)
                else none
              | [] => none
          else none
        | [] => none
      | _ => none
  else none

/-- ProjectScanner.extractValidation (fastify helper, src/unnamed/part_001
lines 324-343): look for the first schema-like identifier in a 1000
character window around the match, then resolve it locally or through
the import table. -/
def extractValidation (env : Env) (content : List Char) (startIndex : Nat)
    (imports : List (String × String)) (filePath : String) : Option ValidationSchema :=
  let contextWindow := sliceJs content (startIndex - 1000) (startIndex + 1000)
  match extractSchemaVar contextWindow with
  | none => none
  | some nameL =>
    let schemaName := asString nameL
    match findSchemaDefinition content schemaName with
    | some v => some v
    | none =>
      match lookupJs imports schemaName with
      | some importPath => loadExternalSchemaSync env schemaName importPath filePath
      | none => none

/-- ProjectScanner.scanFastifyRoutes (src/unnamed/part_001 lines 67-83). -/
def scanFastifyRoutes (env : Env) (content : List Char) (filePath : String)
    (imports : List (String × String)) : List RouteInfo :=
  (scanAllPos matchFastifyAt (content.length + 1) 0 content).map
    (fun pm =>
      { method := asString (toUpperL pm.2.1)
        path := asString pm.2.2
        handler := "fastify handler"
        validation := extractValidation env content pm.1 imports filePath })

/-- Regex `@JsonController\(['...]([^'...]*)['...]\)` at a fixed position
(the base-path capture may be empty). -/
def matchJsonControllerAt (l : List Char) : Option (List Char) :=
  if startsWithL (strL "@JsonController(") l then
    match l.drop 16 with
    | q :: rest =>
      if isQuoteChar q then
        let cap := rest.takeWhile (fun c => !isQuoteChar c)
        match rest.drop cap.length with
        | q2 :: ')' :: _ => if isQuoteChar q2 then some cap else none
        | _ => none
      else none
    | [] => none
  else none

/-- The upper-case decorator verb alternation `(Get|Post|Put|Delete|Patch)`. -/
def matchVerbUpperAt (l : List Char) : Option (List Char × List Char) :=
  if startsWithL (strL "Get") l then some (strL "Get", l.drop 3)
  else if startsWithL (strL "Post") l then some (strL "Post", l.drop 4)
  else if startsWithL (strL "Put") l then some (strL "Put", l.drop 3)
  else if startsWithL (strL "Delete") l then some (strL "Delete", l.drop 6)
  else if startsWithL (strL "Patch") l then some (strL "Patch", l.drop 5)
  else none

/-- Closing part `['...]?\s*\)` of the decorator regex; returns the
remainder after the parenthesis. -/
def decorCloser (m : List Char) : Option (List Char) :=
  match m with
  | q :: t =>
    if isQuoteChar q then
      match t.dropWhile isJsSpace with
      | ')' :: r => some r
      | _ => none
    else
      match m.dropWhile isJsSpace with
      | ')' :: r => some r
      | _ => none
  | [] => none

/-- The part after the decorator's opening parenthesis:
`\s*['...]?([^'...)]*?)['...]?\s*\)` with an optional (greedily preferred)
opening quote and a lazy, possibly empty path capture. -/
def decorAfterParen (r5 : List Char) : Option (List Char × List Char) :=
  let tryFrom : List Char → Option (List Char × List Char) := fun s =>
    (List.range (s.length + 1)).findSome? (fun capLen =>
      let cap := s.take capLen
      if cap.all (fun c => !isQuoteChar c && c ≠ ')') then
        (decorCloser (s.drop capLen)).map (fun rest => (cap, rest))
      else none)
  match r5 with
  | q :: t =>
    if isQuoteChar q then
      match tryFrom t with
      | some r => some r
      | none => tryFrom r5
    else tryFrom r5
  | [] => tryFrom []

/-- Regex `@(Get|Post|Put|Delete|Patch)\s*\(\s*['...]?([^'...)]*?)['...]?\s*\)`
at a fixed position. -/
def matchDecorVerbAt (l : List Char) : Option ((List Char × List Char) × List Char) :=
  match l with
  | '@' :: r1 =>
    match matchVerbUpperAt r1 with
    | none => none
    | some (verb, r2) =>
      match r2.dropWhile isJsSpace with
      | '(' :: r4 =>
        match decorAfterParen (r4.dropWhile isJsSpace) with
        | some (cap, rest) => some ((verb, cap), rest)
        | none => none
      | _ => none
  | _ => none

/-- Regex
`@UseBefore\([\s\S]*?RequestValidatorMiddleware\(\{([\s\S]*?)\}\)[\s\S]*?\)`
at a fixed position: both gaps are lazy (shortest first), and the capture
is the configuration-object text. -/
def matchUseBeforeAt (l : List Char) : Option (List Char) :=
  if startsWithL (strL "@UseBefore(") l then
    let rest := l.drop 11
    (List.range (rest.length + 1)).findSome? (fun i =>
      let r1 := rest.drop i
      if startsWithL (strL "RequestValidatorMiddleware(\x7b") r1 then
        let r2 := r1.drop 28
        (List.range (r2.length + 1)).findSome? (fun j =>
          if startsWithL (strL "\x7d)") (r2.drop j) then
            if ((r2.drop j).drop 2).any (fun c => c = ')') then some (r2.take j) else none
          else none)
      else none)
  else none

/-- First validation-middleware decorator in a window. -/
def findUseBefore (w : List Char) : Option (List Char) :=
  findFirstMatch matchUseBeforeAt w

/-- Regexes `query:\s*(\w+)` / `headers:` / `body:` / `response:` at a
fixed position. -/
def matchKeyWordAt (key : List Char) (l : List Char) : Option (List Char) :=
  if startsWithL key l then
    let r := (l.drop key.length).dropWhile isJsSpace
    let w := r.takeWhile isWordChar
    if w.isEmpty then none else some w
  else none

/-- First `key name` pair in the configuration text. -/
def findKeyWord (key : List Char) (l : List Char) : Option (List Char) :=
  findFirstMatch (matchKeyWordAt key) l

/-- Regex `Promise<[^<]*Response<(\w+)>>` at a fixed position: the greedy
non-angle run can only end eight characters before its closing angle
bracket, where the literal `Response` must sit. -/
def matchPromiseResponseAt (l : List Char) : Option (List Char) :=
  if startsWithL (strL "Promise<") l then
    let rest := l.drop 8
    let region := rest.takeWhile (fun c => c ≠ '<')
    let k := region.length
    if 8 ≤ k ∧ region.drop (k - 8) = strL "Response" then
      match rest.drop k with
      | '<' :: r2 =>
        let w := r2.takeWhile isWordChar
        if w.isEmpty then none
        else
          match r2.drop w.length with
          | '>' :: '>' :: _ => some w
          | _ => none
      | _ => none
    else none
  else none

/-- Regex `Promise<(T\w+)>` at a fixed position. -/
def matchPromiseTAt (l : List Char) : Option (List Char) :=
  if startsWithL (strL "Promise<T") l then
    let r := l.drop 9
    let w := r.takeWhile isWordChar
    if w.isEmpty then none
    else
      match r.drop w.length with
      | '>' :: _ => some ('T' :: w)
      | _ => none
  else none

/-- Regex `:\s*(T\w+)\s*\{` at a fixed position. -/
def matchColonTAt (l : List Char) : Option (List Char) :=
  match l with
  | ':' :: r1 =>
    match r1.dropWhile isJsSpace with
    | 'T' :: r3 =>
      let w := r3.takeWhile isWordChar
      if w.isEmpty then none
      else
        match (r3.drop w.length).dropWhile isJsSpace with
        | '\x7b' :: _ => some ('T' :: w)
        | _ => none
    | _ => none
  | _ => none

/-- ProjectScanner.extractResponseType (src/unnamed/part_001 lines
176-190): the three return-type patterns in order. -/
def extractResponseType (methodContext : List Char) : Option (List Char) :=
  match findFirstMatch matchPromiseResponseAt methodContext with
  | some r => some r
  | none =>
    match findFirstMatch matchPromiseTAt methodContext with
    | some r => some r
    | none => findFirstMatch matchColonTAt methodContext

/-- ProjectScanner.extractUseBefore (src/unnamed/part_001 lines 129-174):
inside a 1500 character window after the decorator, read the
RequestValidatorMiddleware configuration (query/headers/body/response
slots, each resolved through resolveSchema), then fall back to the
method's return type for the response slot; a validation with only its
dialect tag set is dropped. -/
def extractUseBefore (env : Env) (content : List Char) (startIndex : Nat)
    (imports : List (String × String)) (filePath : String) : Option ValidationSchema :=
  let contextWindow := sliceJs content startIndex (startIndex + 1500)
  let v1 : ValidationSchema :=
    match findUseBefore contextWindow with
    | none => { type := VKind.zod }
    | some validationConfig =>
      { type := VKind.zod
        query :=
          match findKeyWord (strL "query:") validationConfig with
          | some n => (resolveSchema env (asString n) content imports filePath).bind
              (fun s => s.body)
          | none => none
        headers :=
          match findKeyWord (strL "headers:") validationConfig with
          | some n => (resolveSchema env (asString n) content imports filePath).bind
              (fun s => s.body)
          | none => none
        body :=
          match findKeyWord (strL "body:") validationConfig with
          | some n => (resolveSchema env (asString n) content imports filePath).bind
              (fun s => s.body)
          | none => none
        responses :=
          match findKeyWord (strL "response:") validationConfig with
          | some n =>
            (match resolveSchema env (asString n) content imports filePath with
             | some s => some [("200", s.body)]
             | none => none)
          | none => none }
  let v2 : ValidationSchema :=
    match extractResponseType contextWindow with
    | some rt =>
      if v1.responses.isSome then v1
      else
        match resolveSchema env (asString rt) content imports filePath with
        | some s => { v1 with responses := some [("200", s.body)] }
        | none => v1
    | none => v1
  if v2.body.isSome || v2.query.isSome || v2.params.isSome || v2.headers.isSome
      || v2.responses.isSome
  then some v2 else none

/-- ProjectScanner.scanDecorators (src/unnamed/part_001 lines 85-108):
the first JsonController capture is the base path, and each method
decorator match contributes one route at basePath + methodPath. -/
def scanDecorators (env : Env) (content : List Char) (filePath : String)
    (imports : List (String × String)) : List RouteInfo :=
  let basePath :=
    match findFirstMatch matchJsonControllerAt content with
    | some b => b
    | none => []
  (scanAllPos matchDecorVerbAt (content.length + 1) 0 content).map
    (fun pm =>
      { method := asString (toUpperL pm.2.1)
        path := asString (basePath ++ pm.2.2)
        handler := "controller method"
        validation := extractUseBefore env content pm.1 imports filePath })

/-- ProjectScanner.scanFile (src/unnamed/part_001 lines 32-46): extract
the import table and run the three dialect scanners in order, appending
their routes.  A path the modelled file system does not know contributes
nothing (the scan paths enumerate existing files). -/
def scanFileRoutes (env : Env) (filePath : String) : List RouteInfo :=
  match lookupEnv env filePath with
  | none => []
  | some content =>
    let imports := extractImports content
    scanExpressRoutes env content filePath imports
      ++ scanFastifyRoutes env content filePath imports
      ++ scanDecorators env content filePath imports

/-- The inner file loop of ProjectScanner.scanProject, pushing onto the
accumulated `this.routes`. -/
def scanFilesLoop (env : Env) : List String → List RouteInfo → List RouteInfo
  | [], acc => acc
  | f :: rest, acc => scanFilesLoop env rest (acc ++ scanFileRoutes env f)

/-- The outer scan-path loop of ProjectScanner.scanProject. -/
def scanPathsLoop (env : Env) (globFn : String → List String) :
    List String → List RouteInfo → List RouteInfo
  | [], acc => acc
  | p :: rest, acc => scanPathsLoop env globFn rest (scanFilesLoop env (globFn p) acc)

/-- ProjectScanner.scanProject (src/unnamed/part_001 lines 9-21):
`this.routes` is reset, then every file of every scan path (enumerated by
the external glob collaborator `globFn`) is scanned in order. -/
def scanProjectRoutes (env : Env) (globFn : String → List String)
    (scanPaths : List String) : List RouteInfo :=
  scanPathsLoop env globFn scanPaths []

/-! ## Well-formed builder-chain (Zod) declarations

To quantify over well-formed Zod object declarations, a declaration is a
list of fields rendered into the concrete text the converter consumes:
each field becomes a line `name: z.baseType()mods,` and the lines are
wrapped in `const N = z.object(\x7b ... \x7d)`. -/

/-- One declared field: its name, its builder base type and the rest of
its modifier chain. -/
structure ZodField where
  name : List Char
  baseType : List Char
  mods : List Char
deriving DecidableEq, Repr

/-- A well-formed identifier: a nonempty run of word characters. -/
def goodIdent (s : List Char) : Bool := !s.isEmpty && s.all isWordChar

/-- A well-formed modifier chain: free of newlines and braces (a newline
would split the field over two lines, and a brace would end the object
capture early). -/
def goodMods (s : List Char) : Bool :=
  s.all (fun c => c ≠ '\n' && c ≠ '\x7b' && c ≠ '\x7d')

/-- Well-formedness of one field. -/
def zodFieldWF (f : ZodField) : Bool :=
  goodIdent f.name && goodIdent f.baseType && goodMods f.mods

/-- The rendered line of one field (with its trailing comma). -/
def renderFieldZ (f : ZodField) : List Char :=
  f.name ++ ':' :: ' ' :: 'z' :: '.' ::
    (f.baseType ++ '(' :: ')' :: (f.mods ++ [',']))

/-- The rendered declaration text. -/
def renderZodDecl (declName : List Char) (fields : List ZodField) : List Char :=
  strL "const " ++ declName ++ strL " = z.object(" ++ '\x7b' :: '\n' ::
    (joinNl (fields.map renderFieldZ) ++ '\n' :: '\x7d' :: [')'])

/-- The property list the parser is expected to produce on a rendered
declaration: one entry per field in order, each property built by
`zodMkProperty` from the field's own modifier chain (with the trailing
comma), its rendered line, and the raw previous line. -/
def expectedZodProps : Option (List Char) → List ZodField → List (List Char × SwProperty)
  | _, [] => []
  | prev, f :: fs =>
    (f.name, zodMkProperty f.baseType (f.mods ++ [',']) (renderFieldZ f) prev)
      :: expectedZodProps (some (renderFieldZ f)) fs

/-! ## Concrete inputs used by the claim witnesses and counterexamples -/

/-- A declaration whose only field carries both a preceding documentation
comment and a trailing same-line comment. -/
def exC3 : String :=
  "const s = z.object(\x7b\n  /** Doc comment */\n  name: z.string(), // inline note\n\x7d)"

/-- A file defining only the schema-suffixed variant of a referenced name. -/
def c4content : String := "const UserResponseSchema = z.object(\x7b id: z.string() \x7d)"

/-- A file defining a schema under its own name. -/
def c4wContent : String := "const FooSchema = z.object(\x7b id: z.string() \x7d)"

/-- The schema value the local lookup finds in `c4wContent`. -/
def c4wSchema : ValidationSchema :=
  (findSchemaDefinition c4wContent.data "FooSchema").getD { type := VKind.zod }

/-- A file with one Express route whose middleware references an unknown
schema name. -/
def c5content : String := "app.post(\x27/x\x27, missingSchema, handler)"

/-- The modelled file system for that file. -/
def c5env : Env := [("/p/r.ts", c5content.data)]

/-- Its single Express match. -/
def c5m : ExpressMatch :=
  (expressMatches c5content.data).headD
    { method := [], routePath := [], middleware := [], handler := none }

/-- File A of the import cycle: it imports X from B. -/
def c7contentA : String := "import \x7b X \x7d from \x27./b\x27\nconst other = 1"

/-- File B of the import cycle: it imports X back from A. -/
def c7contentB : String := "import \x7b X \x7d from \x27./a\x27\nconst misc = 2"

/-- The cyclic two-file file system. -/
def c7env : Env := [("/proj/a.ts", c7contentA.data), ("/proj/b.ts", c7contentB.data)]

/-- A file registering a Fastify route before an Express route. -/
def c9content : String := "fastify.get(\x27/a\x27)\napp.get(\x27/b\x27, handlerB)"

/-- The modelled file system for that file. -/
def c9env : Env := [("/proj/s.ts", c9content.data)]

/-- The file enumeration the glob collaborator returns. -/
def c9glob : String → List String := fun _ => ["/proj/s.ts"]

/-- Concrete well-formed fields for the C2 witness. -/
def wzFields : List ZodField :=
  [ { name := strL "name", baseType := strL "string", mods := strL ".min(1)" },
    { name := strL "email", baseType := strL "string", mods := strL ".email().optional()" },
    { name := strL "age", baseType := strL "number", mods := strL "" } ]

/-- Concrete well-formed fields for the C3 witness. -/
def c3wFields : List ZodField :=
  [ { name := strL "name", baseType := strL "string",
      mods := strL ".describe(\x27User name\x27)" } ]

/-- A GET route carrying a resolved body schema. -/
def c10route : RouteInfo :=
  { method := "GET", path := "/users", handler := "handler",
    validation := some { type := VKind.zod, body := some "z.object(\x7b id: z.string() \x7d)" } }

/-! ## General lemmas about the character-list utilities -/

theorem word_ne {c x : Char} (h : isWordChar c = true) (hx : isWordChar x = false) :
    c ≠ x := by
  intro e
  rw [e, hx] at h
  cases h

theorem word_not_space {c : Char} (h : isWordChar c = true) : isJsSpace c = false := by
  cases hs : isJsSpace c with
  | false => rfl
  | true =>
    exfalso
    simp only [isJsSpace, Bool.or_eq_true, decide_eq_true_eq] at hs
    have hs' : c = ' ' ∨ c = '\t' ∨ c = '\n' ∨ c = '\r' ∨ c = '\x0b' ∨ c = '\x0c' := by
      tauto
    rcases hs' with rfl | rfl | rfl | rfl | rfl | rfl <;> exact absurd h (by decide)

theorem startsWithL_self_append (pat r : List Char) : startsWithL pat (pat ++ r) = true := by
  induction pat with
  | nil => rfl
  | cons p ps ih => simp [startsWithL, ih]

theorem containsL_here (pat r : List Char) : containsL pat (pat ++ r) = true := by
  cases pat with
  | nil =>
    cases r with
    | nil => rfl
    | cons c cs => simp [containsL, startsWithL]
  | cons p ps =>
    have : (p :: ps) ++ r = p :: (ps ++ r) := rfl
    rw [this]
    simp [containsL]
    left
    have := startsWithL_self_append (p :: ps) r
    simpa [startsWithL] using this

theorem containsL_append_left (pat x l : List Char) (h : containsL pat l = true) :
    containsL pat (x ++ l) = true := by
  induction x with
  | nil => simpa using h
  | cons c cs ih => simp [containsL, ih]

theorem startsWithL_snoc (pat : List Char) (c : Char) (hne : pat ≠ []) (hc : c ∉ pat) :
    ∀ xs, startsWithL pat (xs ++ [c]) = startsWithL pat xs := by
  induction pat with
  | nil => cases hne rfl
  | cons p ps ih =>
    intro xs
    cases xs with
    | nil =>
      have hpc : p ≠ c := fun e => hc (by simp [e])
      simp [startsWithL, hpc]
    | cons x xs' =>
      simp only [List.cons_append, startsWithL, List.append_eq]
      cases ps with
      | nil => simp [startsWithL]
      | cons q qs =>
        rw [ih (by simp) (fun hm => hc (List.mem_cons_of_mem _ hm)) xs']

theorem containsL_snoc (pat m : List Char) (c : Char) (hne : pat ≠ []) (hc : c ∉ pat) :
    containsL pat (m ++ [c]) = containsL pat m := by
  induction m with
  | nil =>
    show containsL pat [c] = containsL pat []
    cases pat with
    | nil => cases hne rfl
    | cons p ps =>
      simp only [containsL]
      rw [show ([c] : List Char) = [] ++ [c] from rfl,
        startsWithL_snoc (p :: ps) c hne hc []]
      simp [containsL]
  | cons x m' ih =>
    simp only [List.cons_append, containsL, ih, List.append_eq]
    rw [show x :: (m' ++ [c]) = (x :: m') ++ [c] from rfl,
      startsWithL_snoc pat c hne hc (x :: m')]

theorem jsTrimL_cons (c : Char) (l : List Char) (hc : isJsSpace c = false) :
    jsTrimL (c :: l) = c :: l := by
  simp [jsTrimL, List.dropWhile_cons, hc]

theorem jsTrimR_snoc (l : List Char) (c : Char) (hc : isJsSpace c = false) :
    jsTrimR (l ++ [c]) = l ++ [c] := by
  simp [jsTrimR, List.dropWhile_cons, hc]

theorem insertJs_append {α : Type} (m : List (List Char × α)) (k : List Char) (v : α)
    (h : k ∉ m.map Prod.fst) : insertJs m k v = m ++ [(k, v)] := by
  unfold insertJs
  rw [if_neg]
  rw [List.find?_eq_none.mpr]
  · simp
  · intro x hx
    simp only [decide_eq_true_eq]
    intro e
    exact h (e ▸ List.mem_map_of_mem Prod.fst hx)

/-! ## Claim C1: path normalization -/

theorem normGo_id : ∀ (fuel : Nat) (l : List Char), hasParamStart l = false →
    normGo fuel l = l := by
  intro fuel
  induction fuel with
  | zero => intro l _; rfl
  | succ n ih =>
    intro l h
    match l with
    | [] => rfl
    | [c] =>
      have hnil : normGo n [] = [] := by cases n <;> rfl
      by_cases hc : c = ':'
      · simp only [normGo, hc, if_pos rfl, List.takeWhile_nil, List.isEmpty_nil, if_true, hnil]
      · simp only [normGo, if_neg hc, hnil]
    | c :: d :: rest =>
      have h' : hasParamStart (d :: rest) = false := by
        cases hpd : hasParamStart (d :: rest) with
        | false => rfl
        | true => rw [hasParamStart, hpd, Bool.or_true] at h; cases h
      by_cases hc : c = ':'
      · have hd : isWordChar d = false := by
          cases hwd : isWordChar d with
          | false => rfl
          | true =>
            rw [hasParamStart, hc, hwd] at h
            simp at h
        simp only [normGo, if_pos hc, List.takeWhile_cons, hd]
        simp only [Bool.false_eq_true, if_false, List.isEmpty_nil, if_true]
        rw [ih _ h']
      · simp only [normGo, if_neg hc]
        rw [ih _ h']

/-- Claim C1: path normalization converts every colon-prefixed word
segment to brace-delimited form —
`/users/:id/posts/:postId` becomes `/users/\x7bid\x7d/posts/\x7bpostId\x7d` —
and is the identity on every path in which no colon is immediately
followed by a word character (so the parameter regex `:(\w+)` can never
fire). -/
theorem spec_C1 :
    normalizePath "/users/:id/posts/:postId" = "/users/\x7bid\x7d/posts/\x7bpostId\x7d"
    ∧ ∀ p : String, hasParamStart p.data = false → normalizePath p = p := by
  constructor
  · rfl
  · intro p h
    cases p with
    | mk data =>
      show asString (normGo data.length data) = String.mk data
      rw [normGo_id _ _ h]
      rfl

/-- Witness for C1 at the concrete parameterless path `/users/profile`. -/
theorem spec_C1_witness :
    hasParamStart "/users/profile".data = false
    ∧ normalizePath "/users/profile" = "/users/profile" :=
  ⟨by decide, spec_C1.2 "/users/profile" (by decide)⟩

/-- Claim C8: in every one of the three dialect type maps, a token outside
the recognized token set falls back to the canonical type string: for
every token not among string/number/boolean/date/Date/array/object, all
three mapping functions return "string" rather than failing. -/
theorem spec_C8 : ∀ t : String,
    t ∉ (["string", "number", "boolean", "date", "Date", "array", "object"] : List String) →
    mapZodType t = "string" ∧ mapJoiType t = "string" ∧ mapClassValidatorType t = "string" := by
  intro t h
  simp only [List.mem_cons, List.not_mem_nil, or_false, not_or] at h
  obtain ⟨h1, h2, h3, h4, h5, _, _⟩ := h
  refine ⟨?_, ?_, ?_⟩ <;>
    simp [mapZodType, mapJoiType, mapClassValidatorType, h1, h2, h3, h4, h5]

/-- Witness for C8 at the unrecognized token `uuid`. -/
theorem spec_C8_witness :
    mapZodType "uuid" = "string" ∧ mapJoiType "uuid" = "string"
    ∧ mapClassValidatorType "uuid" = "string" :=
  spec_C8 "uuid" (by decide)

/-- Claim C10: an operation gets a requestBody exactly when the route
carries a truthy resolved body schema text and its method is one of
POST, PUT, PATCH (compared verbatim, as Array.includes does); in
particular a GET or DELETE route never gets a requestBody, even with a
resolved body schema. -/
theorem spec_C10 : ∀ route : RouteInfo,
    ((addRouteRequestBody route).isSome = true ↔
      ∃ v b, route.validation = some v ∧ v.body = some b ∧ b ≠ "" ∧
        (route.method = "POST" ∨ route.method = "PUT" ∨ route.method = "PATCH"))
    ∧ ((route.method = "GET" ∨ route.method = "DELETE") →
        addRouteRequestBody route = none) := by
  intro route
  have hmem : ∀ m : String, (["POST", "PUT", "PATCH"] : List String).contains m = true ↔
      (m = "POST" ∨ m = "PUT" ∨ m = "PATCH") := by
    intro m; simp [List.contains]
  have hnone : route.validation = none → addRouteRequestBody route = none := by
    intro h; unfold addRouteRequestBody; rw [h]
  have hnobody : ∀ v, route.validation = some v → v.body = none →
      addRouteRequestBody route = none := by
    intro v h hb; unfold addRouteRequestBody; simp only [h, hb]
  have hbody : ∀ v b, route.validation = some v → v.body = some b →
      addRouteRequestBody route =
        (if ((!(b == "")) && ((["POST", "PUT", "PATCH"] : List String).contains route.method))
            = true then
          some { required := true, schema := convertValidationToSchema b v.type }
        else none) := by
    intro v b h hb; unfold addRouteRequestBody; simp only [h, hb]
  constructor
  · constructor
    · intro hs
      rcases hv : route.validation with _ | v
      · rw [hnone hv] at hs; cases hs
      · rcases hb : v.body with _ | b
        · rw [hnobody v hv hb] at hs; cases hs
        · rw [hbody v b hv hb] at hs
          by_cases hcond :
            ((!(b == "")) && ((["POST", "PUT", "PATCH"] : List String).contains route.method))
              = true
          · obtain ⟨hb1, hb2⟩ := Bool.and_eq_true_iff.mp hcond
            have hbe : b ≠ "" := by simpa using hb1
            exact ⟨v, b, rfl, hb, hbe, (hmem _).mp hb2⟩
          · rw [if_neg hcond] at hs; cases hs
    · rintro ⟨v, b, hv, hb, hbe, hm⟩
      rw [hbody v b hv hb, if_pos]
      · rfl
      · exact Bool.and_eq_true_iff.mpr ⟨by simpa using hbe, (hmem _).mpr hm⟩
  · intro hget
    have hc : (["POST", "PUT", "PATCH"] : List String).contains route.method = false := by
      rcases hget with h | h <;> rw [h] <;> rfl
    rcases hv : route.validation with _ | v
    · exact hnone hv
    · rcases hb : v.body with _ | b
      · exact hnobody v hv hb
      · rw [hbody v b hv hb, if_neg]
        intro hcond
        have h2 := (Bool.and_eq_true_iff.mp hcond).2
        rw [hc] at h2
        cases h2

/-- Witness for C10: the GET route `c10route` carries a resolved body
schema and still gets no requestBody. -/
theorem spec_C10_witness : addRouteRequestBody c10route = none :=
  (spec_C10 c10route).2 (Or.inl rfl)

/-- Claim C6: resolution is deterministic and idempotent.  In the
embedding the scanner's only mutable state is `this.routes`; the
state-passing form shows that resolveSchema's result is independent of
that state, that resolving does not change it, and that resolving the
same identifier from the same file twice in sequence yields structurally
equal results. -/
theorem spec_C6 : ∀ (env : Env) (schemaName : String) (content : List Char)
    (imports : List (String × String)) (filePath : String) (s₁ s₂ : List RouteInfo),
    (resolveSchemaS env schemaName content imports filePath s₁).1
      = (resolveSchemaS env schemaName content imports filePath s₂).1
    ∧ (resolveSchemaS env schemaName content imports filePath s₁).2 = s₁
    ∧ (resolveSchemaS env schemaName content imports filePath
        ((resolveSchemaS env schemaName content imports filePath s₁).2)).1
      = (resolveSchemaS env schemaName content imports filePath s₁).1 := by
  intro env schemaName content imports filePath s₁ s₂
  exact ⟨rfl, rfl, rfl⟩

/-! ## Claim C7: cycle-safe termination of resolution -/

/-- Claim C7: resolution always terminates (every function of the
embedding is total by construction, mirroring that the resolver follows
at most one import hop and never re-enters resolution), and on a cyclic
configuration — file A imports the identifier from file B while B imports
it back from A, neither file defining it — resolution returns absent
rather than looping. -/
theorem spec_C7 : ∀ (env : Env) (schemaName : String) (contentA contentB : List Char)
    (importsA : List (String × String)) (fileA pathToB pathBackToA : String),
    findSchemaDefinition contentA schemaName = none →
    lookupJs importsA schemaName = some pathToB →
    lookupEnv env (resolvePath (dirnameStr fileA) (pathToB ++ ".ts")) = some contentB →
    findSchemaDefinition contentB schemaName = none →
    startsWithT schemaName = false →
    lookupJs (extractImports contentB) schemaName = some pathBackToA →
    resolveSchema env schemaName contentA importsA fileA = none := by
  intro env n cA cB impsA fA pB pA h1 h2 h4 h3 hT _
  unfold resolveSchema
  simp only [h1, h2]
  unfold loadExternalSchemaSync
  simp only [h4, h3, hT]
  rfl

/-- Witness for C7: the concrete two-file cycle `c7env` (A imports X from
B, B imports X from A) resolves to absent. -/
theorem spec_C7_witness :
    resolveSchema c7env "X" c7contentA.data (extractImports c7contentA.data) "/proj/a.ts"
      = none :=
  spec_C7 c7env "X" c7contentA.data c7contentB.data (extractImports c7contentA.data)
    "/proj/a.ts" "./b" "./a" (by rfl) (by rfl) (by rfl) (by rfl) (by rfl) (by rfl)

/-! ## Claim C4: the symbol resolution chain -/

/-- Counterexample for C4 as stated: `UserResponse` is referenced in a
file that defines `UserResponseSchema`; the claimed fallback (b) —
appending the `Schema` suffix to the identifier itself — would resolve
it, but the resolver (src/unnamed/part_001) returns absent, because its
only naming fallback requires a leading `T`. -/
theorem spec_C4_counterexample :
    resolveSchema [] "UserResponse" c4content.data [] "/p/f.ts" = none
    ∧ (findSchemaDefinition c4content.data "UserResponseSchema").isSome = true :=
  ⟨rfl, rfl⟩

/-- Claim C4 as amended: resolution tries, in order and short-circuiting
on first success, (1) a schema/class declaration with the exact name in
the originating file, (2) the file named in the import table for that
identifier, and (3) — only when the identifier starts with `T` — the
derived name obtained by stripping the `T` and appending `Schema`,
retried through steps 1-2; when the identifier does not start with `T`
there is no further fallback and resolution returns absent. -/
theorem spec_C4_amended : ∀ (env : Env) (schemaName : String) (content : List Char)
    (imports : List (String × String)) (filePath : String),
    (∀ s, findSchemaDefinition content schemaName = some s →
      resolveSchema env schemaName content imports filePath = some s)
    ∧ (∀ p s, findSchemaDefinition content schemaName = none →
        lookupJs imports schemaName = some p →
        loadExternalSchemaSync env schemaName p filePath = some s →
        resolveSchema env schemaName content imports filePath = some s)
    ∧ (findSchemaDefinition content schemaName = none →
        (∀ p, lookupJs imports schemaName = some p →
          loadExternalSchemaSync env schemaName p filePath = none) →
        startsWithT schemaName = false →
        resolveSchema env schemaName content imports filePath = none)
    ∧ (∀ s, findSchemaDefinition content schemaName = none →
        (∀ p, lookupJs imports schemaName = some p →
          loadExternalSchemaSync env schemaName p filePath = none) →
        startsWithT schemaName = true →
        findSchemaDefinition content (stripLeadingT schemaName ++ "Schema") = some s →
        resolveSchema env schemaName content imports filePath = some s)
    ∧ (∀ p s, findSchemaDefinition content schemaName = none →
        (∀ p', lookupJs imports schemaName = some p' →
          loadExternalSchemaSync env schemaName p' filePath = none) →
        startsWithT schemaName = true →
        findSchemaDefinition content (stripLeadingT schemaName ++ "Schema") = none →
        lookupJs imports (stripLeadingT schemaName ++ "Schema") = some p →
        loadExternalSchemaSync env (stripLeadingT schemaName ++ "Schema") p filePath = some s →
        resolveSchema env schemaName content imports filePath = some s)
    ∧ (findSchemaDefinition content schemaName = none →
        (∀ p, lookupJs imports schemaName = some p →
          loadExternalSchemaSync env schemaName p filePath = none) →
        startsWithT schemaName = true →
        findSchemaDefinition content (stripLeadingT schemaName ++ "Schema") = none →
        (∀ p, lookupJs imports (stripLeadingT schemaName ++ "Schema") = some p →
          loadExternalSchemaSync env (stripLeadingT schemaName ++ "Schema") p filePath
            = none) →
        resolveSchema env schemaName content imports filePath = none) := by
  intro env n content imports filePath
  refine ⟨?_, ?_, ?_, ?_, ?_, ?_⟩
  · intro s h
    unfold resolveSchema
    simp only [h]
  · intro p s h1 h2 h3
    unfold resolveSchema
    simp only [h1, h2, h3]
  · intro h1 himp hT
    unfold resolveSchema
    simp only [h1]
    cases hlk : lookupJs imports n with
    | none => simp only [hT]; rfl
    | some p => simp only [himp p hlk, hT]; rfl
  · intro s h1 himp hT h4
    unfold resolveSchema
    simp only [h1]
    cases hlk : lookupJs imports n with
    | none => simp only [hT, if_true, h4]
    | some p => simp only [himp p hlk, hT, if_true, h4]
  · intro p s h1 himp hT h4 h5 h6
    unfold resolveSchema
    simp only [h1]
    cases hlk : lookupJs imports n with
    | none => simp only [hT, if_true, h4, h5, h6]
    | some p' => simp only [himp p' hlk, hT, if_true, h4, h5, h6]
  · intro h1 himp hT h4 himp2
    unfold resolveSchema
    simp only [h1]
    cases hlk : lookupJs imports n with
    | none =>
      simp only [hT, if_true, h4]
      cases hlk2 : lookupJs imports (stripLeadingT n ++ "Schema") with
      | none => rfl
      | some p => simp only [himp2 p hlk2]
    | some p' =>
      simp only [himp p' hlk, hT, if_true, h4]
      cases hlk2 : lookupJs imports (stripLeadingT n ++ "Schema") with
      | none => rfl
      | some p => simp only [himp2 p hlk2]

/-- Witness for C4 (amended): a schema defined under its own name in the
originating file resolves to exactly the locally found definition. -/
theorem spec_C4_witness :
    resolveSchema [] "FooSchema" c4wContent.data [] "/p/f.ts" = some c4wSchema :=
  (spec_C4_amended [] "FooSchema" c4wContent.data [] "/p/f.ts").1 c4wSchema (by rfl)

/-! ## Claim C5: unresolved references never drop a route -/

/-- Claim C5: when the schema-like identifier referenced by an Express
route's middleware matches no declaration in its file and every import
edge for it fails to load a definition, the resolver returns absent (an
`Option.none` value, not an error — every embedded function is total)
and the scanner still emits the RouteInfo for that route, with the
validation slot empty. -/
theorem spec_C5 : ∀ (env : Env) (filePath : String) (content : List Char)
    (m : ExpressMatch) (nameL : List Char),
    lookupEnv env filePath = some content →
    m ∈ expressMatches content →
    extractSchemaRef m.middleware = some nameL →
    findSchemaDefinition content (asString nameL) = none →
    (∀ p, lookupJs (extractImports content) (asString nameL) = some p →
      loadExternalSchemaSync env (asString nameL) p filePath = none) →
    (mkExpressRoute env content filePath (extractImports content) m).validation = none
    ∧ mkExpressRoute env content filePath (extractImports content) m
        ∈ scanFileRoutes env filePath := by
  intro env filePath content m nameL h0 hm href hlocal himp
  have hval : extractValidationFromMiddleware env content m.middleware
      (extractImports content) filePath = none := by
    unfold extractValidationFromMiddleware
    simp only [href, hlocal]
    cases hlk : lookupJs (extractImports content) (asString nameL) with
    | none => rfl
    | some p => simp only [himp p hlk]
  refine ⟨hval, ?_⟩
  unfold scanFileRoutes
  simp only [h0]
  apply List.mem_append_left
  apply List.mem_append_left
  unfold scanExpressRoutes
  exact List.mem_map_of_mem _ hm

/-- Witness for C5: the single POST route of `c5content` references
`missingSchema`, which resolves nowhere; the route is still emitted with
an empty validation slot. -/
theorem spec_C5_witness :
    (mkExpressRoute c5env c5content.data "/p/r.ts" (extractImports c5content.data)
        c5m).validation = none
    ∧ mkExpressRoute c5env c5content.data "/p/r.ts" (extractImports c5content.data) c5m
        ∈ scanFileRoutes c5env "/p/r.ts" :=
  spec_C5 c5env "/p/r.ts" c5content.data c5m (strL "missingSchema") (by rfl) (by decide)
    (by rfl) (by rfl)
    (fun p hp => Option.noConfusion hp)

/-! ## Claim C9: route order of the project scan -/

theorem scanFilesLoop_eq (env : Env) : ∀ (files : List String) (acc : List RouteInfo),
    scanFilesLoop env files acc = acc ++ files.flatMap (scanFileRoutes env) := by
  intro files
  induction files with
  | nil => intro acc; simp [scanFilesLoop]
  | cons f rest ih => intro acc; simp [scanFilesLoop, ih]

theorem scanPathsLoop_eq (env : Env) (globFn : String → List String) :
    ∀ (ps : List String) (acc : List RouteInfo),
    scanPathsLoop env globFn ps acc = acc ++ (ps.flatMap globFn).flatMap (scanFileRoutes env) := by
  intro ps
  induction ps with
  | nil => intro acc; simp [scanPathsLoop]
  | cons p rest ih => intro acc; simp [scanPathsLoop, ih, scanFilesLoop_eq]

/-- Counterexample for C9 as stated: in `c9content` the Fastify
registration of `/a` occurs strictly before the Express registration of
`/b` (compared by their first-occurrence indices), yet the scan emits the
Express route first — within a file the output is grouped by dialect, not
by in-file source order. -/
theorem spec_C9_counterexample :
    (scanProjectRoutes c9env c9glob ["src"]).map RouteInfo.path = ["/b", "/a"]
    ∧ (["/b", "/a"] : List String) ≠ ["/a", "/b"]
    ∧ c9content.data.length - ((dropToSub (strL "fastify.") c9content.data).getD []).length
        < c9content.data.length - ((dropToSub (strL "app.") c9content.data).getD []).length :=
  ⟨rfl, by decide, by decide⟩

/-- Claim C9 as amended: the scan output is the concatenation, over the
scan paths in order and the enumerated files of each path in order, of
the per-file routes; and within one file the routes are grouped by
dialect — Express call-chain matches first, then Fastify matches, then
decorator matches, each group in its own scan order. -/
theorem spec_C9_amended :
    (∀ (env : Env) (globFn : String → List String) (scanPaths : List String),
      scanProjectRoutes env globFn scanPaths
        = (scanPaths.flatMap globFn).flatMap (scanFileRoutes env))
    ∧ (∀ (env : Env) (filePath : String) (content : List Char),
        lookupEnv env filePath = some content →
        scanFileRoutes env filePath =
          scanExpressRoutes env content filePath (extractImports content)
            ++ scanFastifyRoutes env content filePath (extractImports content)
            ++ scanDecorators env content filePath (extractImports content)) := by
  constructor
  · intro env globFn scanPaths
    simp [scanProjectRoutes, scanPathsLoop_eq]
  · intro env filePath content h
    unfold scanFileRoutes
    simp only [h]

/-- Witness for C9 (amended, per-file grouping) at the concrete mixed
file of `c9env`. -/
theorem spec_C9_witness :
    scanFileRoutes c9env "/proj/s.ts" =
      scanExpressRoutes c9env c9content.data "/proj/s.ts" (extractImports c9content.data)
        ++ scanFastifyRoutes c9env c9content.data "/proj/s.ts" (extractImports c9content.data)
        ++ scanDecorators c9env c9content.data "/proj/s.ts" (extractImports c9content.data) :=
  spec_C9_amended.2 c9env "/proj/s.ts" c9content.data (by rfl)

/-! ## Claim C2: lemmas about rendered Zod declarations -/

theorem zodFieldWF_spec (f : ZodField) (h : zodFieldWF f = true) :
    (f.name ≠ [] ∧ ∀ c ∈ f.name, isWordChar c = true)
    ∧ (f.baseType ≠ [] ∧ ∀ c ∈ f.baseType, isWordChar c = true)
    ∧ (∀ c ∈ f.mods, c ≠ '\n' ∧ c ≠ '\x7b' ∧ c ≠ '\x7d') := by
  simp only [zodFieldWF, goodIdent, goodMods, Bool.and_eq_true, List.all_eq_true,
    Bool.not_eq_true', decide_eq_true_eq] at h
  obtain ⟨⟨⟨hn1, hn2⟩, hb1, hb2⟩, hm⟩ := h
  refine ⟨⟨?_, hn2⟩, ⟨?_, hb2⟩, ?_⟩
  · intro e; rw [e] at hn1; cases hn1
  · intro e; rw [e] at hb1; cases hb1
  · intro c hc
    have := hm c hc
    simp only [Bool.and_eq_true, decide_eq_true_eq] at this
    exact ⟨this.1.1, this.1.2, this.2⟩

theorem takeWhile_word_prefix (a : List Char) (r : List Char) (c : Char)
    (ha : ∀ x ∈ a, isWordChar x = true) (hc : isWordChar c = false) :
    (a ++ c :: r).takeWhile isWordChar = a
    ∧ (a ++ c :: r).dropWhile isWordChar = c :: r := by
  constructor
  · rw [List.takeWhile_append_of_pos ha, List.takeWhile_cons_of_neg (by simp [hc]),
      List.append_nil]
  · rw [List.dropWhile_append_of_pos ha, List.dropWhile_cons_of_neg (by simp [hc])]

theorem matchFieldAt_render (f : ZodField) (h : zodFieldWF f = true) :
    matchFieldAt (strL "z.") (renderFieldZ f)
      = some (f.name, f.baseType, f.mods ++ [',']) := by
  obtain ⟨⟨hn1, hn2⟩, ⟨hb1, hb2⟩, _⟩ := zodFieldWF_spec f h
  have hrender : renderFieldZ f
      = f.name ++ ':' :: (' ' :: 'z' :: '.' :: (f.baseType ++ '(' :: ')' :: (f.mods ++ [',']))) :=
    rfl
  obtain ⟨htw, hdw⟩ := takeWhile_word_prefix f.name
    (' ' :: 'z' :: '.' :: (f.baseType ++ '(' :: ')' :: (f.mods ++ [','])))
    ':' hn2 (by decide)
  obtain ⟨htw2, hdw2⟩ := takeWhile_word_prefix f.baseType (')' :: (f.mods ++ [',']))
    '(' hb2 (by decide)
  have hne : f.name.isEmpty = false := by
    cases hx : f.name with
    | nil => exact absurd hx hn1
    | cons a b => rfl
  have hbe : f.baseType.isEmpty = false := by
    cases hx : f.baseType with
    | nil => exact absurd hx hb1
    | cons a b => rfl
  have hpre : strL "z." = ['z', '.'] := rfl
  unfold matchFieldAt
  rw [hrender]
  simp only [htw, hdw, hne, Bool.false_eq_true, if_false]
  simp only [List.dropWhile_cons, show isJsSpace ' ' = true from by decide, if_true,
    show isJsSpace 'z' = false from by decide, Bool.false_eq_true, if_false]
  rw [hpre]
  have hsw : startsWithL ['z', '.']
      ('z' :: '.' :: (f.baseType ++ '(' :: ')' :: (f.mods ++ [',']))) = true :=
    startsWithL_self_append ['z', '.'] (f.baseType ++ '(' :: ')' :: (f.mods ++ [',']))
  simp only [hsw, if_true, List.length_cons, List.length_nil, List.drop_succ_cons,
    List.drop_zero, htw2, hdw2, hbe, Bool.false_eq_true, if_false]

theorem findFieldMatch_render (f : ZodField) (h : zodFieldWF f = true) :
    findFieldMatch (strL "z.") (renderFieldZ f)
      = some (f.name, f.baseType, f.mods ++ [',']) := by
  obtain ⟨⟨hn1, _⟩, _, _⟩ := zodFieldWF_spec f h
  have hm := matchFieldAt_render f h
  cases hx : f.name with
  | nil => exact absurd hx hn1
  | cons a b =>
    have hr : renderFieldZ f
        = a :: (b ++ ':' :: ' ' :: 'z' :: '.' ::
            (f.baseType ++ '(' :: ')' :: (f.mods ++ [',']))) := by
      rw [show renderFieldZ f = f.name ++ ':' :: ' ' :: 'z' :: '.' ::
        (f.baseType ++ '(' :: ')' :: (f.mods ++ [','])) from rfl, hx]
      rfl
    rw [hr] at hm ⊢
    simp only [findFieldMatch, hm]
    rw [hx]

theorem jsTrim_id_of (l : List Char) (a : Char) (x : List Char) (y : List Char) (c : Char)
    (h1 : l = a :: x) (ha : isJsSpace a = false)
    (h2 : l = y ++ [c]) (hc : isJsSpace c = false) : jsTrim l = l := by
  unfold jsTrim
  rw [h1, jsTrimL_cons _ _ ha, ← h1, h2, jsTrimR_snoc _ _ hc]

theorem jsTrim_render (f : ZodField) (h : zodFieldWF f = true) :
    jsTrim (renderFieldZ f) = renderFieldZ f := by
  obtain ⟨⟨hn1, hn2⟩, _, _⟩ := zodFieldWF_spec f h
  cases hx : f.name with
  | nil => exact absurd hx hn1
  | cons a b =>
    have ha : isJsSpace a = false :=
      word_not_space (hn2 a (by rw [hx]; exact List.mem_cons_self _ _))
    refine jsTrim_id_of (renderFieldZ f) a
      (b ++ ':' :: ' ' :: 'z' :: '.' :: (f.baseType ++ '(' :: ')' :: (f.mods ++ [','])))
      (f.name ++ ':' :: ' ' :: 'z' :: '.' :: (f.baseType ++ '(' :: ')' :: f.mods))
      ',' ?_ ha ?_ (by decide)
    · rw [show renderFieldZ f = f.name ++ ':' :: ' ' :: 'z' :: '.' ::
        (f.baseType ++ '(' :: ')' :: (f.mods ++ [','])) from rfl, hx]
      rfl
    · rw [show renderFieldZ f = f.name ++ ':' :: ' ' :: 'z' :: '.' ::
        (f.baseType ++ '(' :: ')' :: (f.mods ++ [','])) from rfl]
      simp

theorem renderFieldZ_chars (f : ZodField) (h : zodFieldWF f = true) :
    ∀ c ∈ renderFieldZ f, c ≠ '\n' ∧ c ≠ '\x7d' := by
  obtain ⟨⟨_, hn2⟩, ⟨_, hb2⟩, hm⟩ := zodFieldWF_spec f h
  intro c hc
  rw [show renderFieldZ f = f.name ++ ':' :: ' ' :: 'z' :: '.' ::
    (f.baseType ++ '(' :: ')' :: (f.mods ++ [','])) from rfl] at hc
  simp only [List.mem_append, List.mem_cons, List.not_mem_nil, or_false] at hc
  rcases hc with hc | rfl | rfl | rfl | rfl | hc | rfl | rfl | hc | rfl
  · exact ⟨word_ne (hn2 c hc) (by decide), word_ne (hn2 c hc) (by decide)⟩
  · exact ⟨by decide, by decide⟩
  · exact ⟨by decide, by decide⟩
  · exact ⟨by decide, by decide⟩
  · exact ⟨by decide, by decide⟩
  · exact ⟨word_ne (hb2 c hc) (by decide), word_ne (hb2 c hc) (by decide)⟩
  · exact ⟨by decide, by decide⟩
  · exact ⟨by decide, by decide⟩
  · exact ⟨(hm c hc).1, (hm c hc).2.2⟩
  · exact ⟨by decide, by decide⟩

theorem joinNl_chars (P : Char → Prop) (ls : List (List Char))
    (hP : ∀ l ∈ ls, ∀ c ∈ l, P c) (hnl : P '\n') : ∀ c ∈ joinNl ls, P c := by
  induction ls with
  | nil => intro c hc; simp [joinNl] at hc
  | cons l ls' ih =>
    cases ls' with
    | nil => intro c hc; exact hP l (by simp) c hc
    | cons l2 ls'' =>
      intro c hc
      rw [show joinNl (l :: l2 :: ls'') = l ++ '\n' :: joinNl (l2 :: ls'') from rfl] at hc
      simp only [List.mem_append, List.mem_cons] at hc
      rcases hc with hc | rfl | hc
      · exact hP l (by simp) c hc
      · exact hnl
      · exact ih (fun l' hl' => hP l' (by simp [hl'])) c hc

theorem splitNl_append_nl (a r : List Char) (ha : ∀ c ∈ a, c ≠ '\n') :
    splitNl (a ++ '\n' :: r) = a :: splitNl r := by
  induction a with
  | nil => simp [splitNl]
  | cons c a' ih =>
    have hc : c ≠ '\n' := ha c (by simp)
    have ih' := ih (fun x hx => ha x (by simp [hx]))
    rw [show (c :: a') ++ '\n' :: r = c :: (a' ++ '\n' :: r) from rfl]
    simp only [splitNl, if_neg hc, ih']

theorem splitNl_joinNl (ls : List (List Char)) (l0 : List Char)
    (h : ∀ l ∈ l0 :: ls, ∀ c ∈ l, c ≠ '\n') :
    splitNl (joinNl (l0 :: ls) ++ ['\n']) = (l0 :: ls) ++ [[]] := by
  induction ls generalizing l0 with
  | nil =>
    rw [show joinNl [l0] = l0 from rfl]
    rw [splitNl_append_nl l0 [] (h l0 (by simp))]
    rfl
  | cons l2 ls' ih =>
    rw [show joinNl (l0 :: l2 :: ls') = l0 ++ '\n' :: joinNl (l2 :: ls') from rfl]
    rw [show (l0 ++ '\n' :: joinNl (l2 :: ls')) ++ ['\n']
        = l0 ++ '\n' :: (joinNl (l2 :: ls') ++ ['\n']) from by simp]
    rw [splitNl_append_nl l0 _ (h l0 (by simp))]
    rw [ih l2 (fun l hl => h l (by simp at hl ⊢; tauto))]
    rfl

theorem dropWhile_neq_append (x : Char) (a l : List Char) (ha : ∀ c ∈ a, c ≠ x) :
    (a ++ l).dropWhile (fun c => (c ≠ x : Bool)) = l.dropWhile (fun c => (c ≠ x : Bool)) := by
  apply List.dropWhile_append_of_pos
  intro c hc
  simpa using ha c hc

theorem takeWhile_neq_append (x : Char) (a l : List Char) (ha : ∀ c ∈ a, c ≠ x) :
    (a ++ l).takeWhile (fun c => (c ≠ x : Bool)) = a ++ l.takeWhile (fun c => (c ≠ x : Bool)) := by
  apply List.takeWhile_append_of_pos
  intro c hc
  simpa using ha c hc

theorem braceCapture_render (N : List Char) (fields : List ZodField)
    (hN : goodIdent N = true) (hf : ∀ f ∈ fields, zodFieldWF f = true) :
    braceCapture (renderZodDecl N fields)
      = some ('\n' :: (joinNl (fields.map renderFieldZ) ++ ['\n'])) := by
  have hNw : ∀ c ∈ N, isWordChar c = true := by
    simp only [goodIdent, Bool.and_eq_true, List.all_eq_true] at hN
    exact hN.2
  have hpre : ∀ c ∈ (strL "const " ++ (N ++ strL " = z.object(")), c ≠ '\x7b' := by
    intro c hc
    simp only [List.mem_append] at hc
    rcases hc with hc | hc | hc
    · revert hc; revert c; decide
    · exact word_ne (hNw c hc) (by decide)
    · revert hc; revert c; decide
  have hinner : ∀ c ∈ '\n' :: (joinNl (fields.map renderFieldZ) ++ ['\n']), c ≠ '\x7d' := by
    intro c hc
    simp only [List.mem_cons, List.mem_append, List.not_mem_nil, or_false,
      List.mem_singleton] at hc
    rcases hc with rfl | hc | rfl
    · decide
    · exact (joinNl_chars (fun x => x ≠ '\x7d') (fields.map renderFieldZ)
        (fun l hl => by
          simp only [List.mem_map] at hl
          obtain ⟨f, hfm, rfl⟩ := hl
          exact fun x hx => (renderFieldZ_chars f (hf f hfm) x hx).2)
        (by decide) c hc)
    · decide
  unfold braceCapture renderZodDecl
  rw [show strL "const " ++ N ++ strL " = z.object(" ++ '\x7b' :: '\n' ::
      (joinNl (List.map renderFieldZ fields) ++ '\n' :: '\x7d' :: [')'])
    = (strL "const " ++ (N ++ strL " = z.object("))
      ++ ('\x7b' :: (('\n' :: (joinNl (List.map renderFieldZ fields) ++ ['\n']))
          ++ ('\x7d' :: [')']))) from by simp]
  rw [dropWhile_neq_append '\x7b' _ _ hpre]
  rw [List.dropWhile_cons_of_neg (by simp)]
  simp only []
  rw [dropWhile_neq_append '\x7d' _ _ hinner]
  rw [List.dropWhile_cons_of_neg (by simp)]
  rw [takeWhile_neq_append '\x7d' _ _ hinner]
  rw [List.takeWhile_cons_of_neg (by simp)]
  simp

theorem zodLoop_render : ∀ (fields : List ZodField) (prev : Option (List Char))
    (props : List (List Char × SwProperty)) (req : List (List Char)),
    (∀ f ∈ fields, zodFieldWF f = true) →
    (fields.map ZodField.name).Nodup →
    (∀ f ∈ fields, f.name ∉ props.map Prod.fst) →
    zodLoop (fields.map renderFieldZ ++ [[]]) prev props req =
      (props ++ expectedZodProps prev fields,
       req ++ (fields.filter
         (fun f => !containsL (strL ".optional()") f.mods)).map ZodField.name) := by
  intro fields
  induction fields with
  | nil =>
    intro prev props req _ _ _
    simp [zodLoop, jsTrim, jsTrimL, jsTrimR, expectedZodProps]
  | cons f fs ih =>
    intro prev props req hwf hnd hfresh
    have hwff := hwf f (by simp)
    have htrim := jsTrim_render f hwff
    have hfind := findFieldMatch_render f hwff
    obtain ⟨⟨hn1, hn2⟩, _, _⟩ := zodFieldWF_spec f hwff
    have hisEmpty : (renderFieldZ f).isEmpty = false := by
      cases hx : f.name with
      | nil => exact absurd hx hn1
      | cons a b =>
        rw [show renderFieldZ f = f.name ++ ':' :: ' ' :: 'z' :: '.' ::
          (f.baseType ++ '(' :: ')' :: (f.mods ++ [','])) from rfl, hx]
        rfl
    have hss : startsWithL (strL "//") (renderFieldZ f) = false := by
      cases hx : f.name with
      | nil => exact absurd hx hn1
      | cons a b =>
        have ha : isWordChar a = true := hn2 a (by rw [hx]; simp)
        have hne : ¬('/' = a) := fun e => (word_ne ha (by decide)) e.symm
        rw [show renderFieldZ f = a :: (b ++ ':' :: ' ' :: 'z' :: '.' ::
          (f.baseType ++ '(' :: ')' :: (f.mods ++ [','])))
          from by rw [show renderFieldZ f = f.name ++ ':' :: ' ' :: 'z' :: '.' ::
            (f.baseType ++ '(' :: ')' :: (f.mods ++ [','])) from rfl, hx]; rfl]
        rw [show strL "//" = ['/', '/'] from rfl]
        simp only [startsWithL, decide_eq_false hne, Bool.false_and]
    have hfreshf : f.name ∉ props.map Prod.fst := hfresh f (by simp)
    have hnd' : (fs.map ZodField.name).Nodup := (List.nodup_cons.mp hnd).2
    have hfn : f.name ∉ fs.map ZodField.name := (List.nodup_cons.mp hnd).1
    rw [show (f :: fs).map renderFieldZ ++ [[]]
      = renderFieldZ f :: (fs.map renderFieldZ ++ [[]]) from by simp]
    simp only [zodLoop, htrim, hisEmpty, hss, Bool.or_self, Bool.false_eq_true, if_false,
      hfind]
    rw [insertJs_append props f.name _ hfreshf]
    rw [containsL_snoc (strL ".optional()") f.mods ',' (by decide) (by decide)]
    have hfresh' : ∀ g ∈ fs, g.name ∉
        (props ++ [(f.name, zodMkProperty f.baseType (f.mods ++ [','])
          (renderFieldZ f) prev)]).map Prod.fst := by
      intro g hg
      simp only [List.map_append, List.map_cons, List.map_nil, List.mem_append,
        List.mem_singleton, List.mem_cons, List.not_mem_nil, or_false]
      intro hor
      rcases hor with hor | hor
      · exact hfresh g (by simp [hg]) hor
      · exact hfn (hor ▸ List.mem_map_of_mem ZodField.name hg)
    have hih := ih (some (renderFieldZ f))
      (props ++ [(f.name, zodMkProperty f.baseType (f.mods ++ [','])
        (renderFieldZ f) prev)])
      (if containsL (strL ".optional()") f.mods then req else req ++ [f.name])
      (fun g hg => hwf g (by simp [hg])) hnd' hfresh'
    by_cases hopt : containsL (strL ".optional()") f.mods = true
    · rw [if_pos hopt] at hih ⊢
      rw [hih]
      rw [show expectedZodProps prev (f :: fs)
        = (f.name, zodMkProperty f.baseType (f.mods ++ [','])
            (renderFieldZ f) prev) :: expectedZodProps (some (renderFieldZ f)) fs from rfl]
      rw [List.filter_cons]
      simp only [hopt, Bool.not_true, Bool.false_eq_true, if_false]
      simp [List.append_assoc]
    · rw [if_neg hopt] at hih ⊢
      rw [hih]
      rw [show expectedZodProps prev (f :: fs)
        = (f.name, zodMkProperty f.baseType (f.mods ++ [','])
            (renderFieldZ f) prev) :: expectedZodProps (some (renderFieldZ f)) fs from rfl]
      rw [List.filter_cons]
      have hopt' : containsL (strL ".optional()") f.mods = false := by
        cases hx : containsL (strL ".optional()") f.mods
        · rfl
        · exact absurd hx hopt
      simp only [hopt', Bool.not_false, if_true]
      simp [List.append_assoc]

theorem expectedZodProps_fst : ∀ (fields : List ZodField) (prev : Option (List Char)),
    (expectedZodProps prev fields).map Prod.fst = fields.map ZodField.name := by
  intro fields
  induction fields with
  | nil => intro prev; rfl
  | cons f fs ih => intro prev; simp [expectedZodProps, ih]

theorem convert_render (N : List Char) (fields : List ZodField) :
    ZodToSwagger.convert (asString (renderZodDecl N fields))
      = parseZodObject (renderZodDecl N fields) := by
  have hre : renderZodDecl N fields = strL "const " ++ (N ++ (strL " = " ++
      (strL "z.object(" ++ ('\x7b' :: '\n' ::
        (joinNl (fields.map renderFieldZ) ++ '\n' :: '\x7d' :: [')']))))) := by
    have hBCD : strL " = z.object(" = strL " = " ++ strL "z.object(" := by decide
    unfold renderZodDecl
    rw [hBCD]
    simp [List.append_assoc]
  have h1 : containsL (strL "z.object(")
      (strL "z.object(" ++ ('\x7b' :: '\n' ::
        (joinNl (fields.map renderFieldZ) ++ '\n' :: '\x7d' :: [')']))) = true :=
    containsL_here _ _
  have h2 := containsL_append_left (strL "z.object(") (strL " = ") _ h1
  have h3 := containsL_append_left (strL "z.object(") N _ h2
  have h4 := containsL_append_left (strL "z.object(") (strL "const ") _ h3
  unfold ZodToSwagger.convert
  rw [show (asString (renderZodDecl N fields)).data = renderZodDecl N fields from rfl]
  rw [hre, h4]
  simp

theorem parseZodObject_capture (l cap : List Char) (h : braceCapture l = some cap) :
    parseZodObject l =
      { type := "object", properties := some (zodLoop (splitNl cap) none [] []).1,
        required := if (zodLoop (splitNl cap) none [] []).2.isEmpty then none
                    else some (zodLoop (splitNl cap) none [] []).2 } := by
  unfold parseZodObject
  rw [h]

/-- Claim C2: on every well-formed builder-chain (Zod) declaration — every
field a nonempty word-character name with a nonempty word-character base
type and a newline- and brace-free modifier chain, names distinct —
ZodToSwagger.convert produces exactly one property entry per declared
field, in declaration order, and the required list holds exactly the
names of the fields whose modifier chain does not contain the
`.optional()` marker (the JS code leaves the key absent when that list is
empty). -/
theorem spec_C2 : ∀ (N : List Char) (fields : List ZodField),
    goodIdent N = true →
    (∀ f ∈ fields, zodFieldWF f = true) →
    (fields.map ZodField.name).Nodup →
    ((ZodToSwagger.convert (asString (renderZodDecl N fields))).properties.map
        (fun ps => ps.map Prod.fst)) = some (fields.map ZodField.name)
    ∧ (ZodToSwagger.convert (asString (renderZodDecl N fields))).required
      = (if ((fields.filter (fun f => !containsL (strL ".optional()") f.mods)).map
            ZodField.name).isEmpty
         then none
         else some ((fields.filter (fun f => !containsL (strL ".optional()") f.mods)).map
            ZodField.name)) := by
  intro N fields hN hwf hnd
  rw [convert_render N fields]
  have hcap := braceCapture_render N fields hN hwf
  rw [parseZodObject_capture _ _ hcap]
  cases hfs : fields with
  | nil =>
    exact ⟨rfl, rfl⟩
  | cons f0 fs0 =>
    rw [hfs] at hwf hnd
    have hchars : ∀ l ∈ (renderFieldZ f0 :: fs0.map renderFieldZ), ∀ c ∈ l, c ≠ '\n' := by
      intro l hl c hc
      simp only [List.mem_cons, List.mem_map] at hl
      rcases hl with rfl | ⟨g, hg, rfl⟩
      · exact (renderFieldZ_chars f0 (hwf f0 (by simp)) c hc).1
      · exact (renderFieldZ_chars g (hwf g (by simp [hg])) c hc).1
    have hsplit := splitNl_joinNl (fs0.map renderFieldZ) (renderFieldZ f0) hchars
    rw [show ((f0 :: fs0).map renderFieldZ) = renderFieldZ f0 :: fs0.map renderFieldZ
      from by simp]
    rw [show splitNl ('\n' :: ((joinNl (renderFieldZ f0 :: fs0.map renderFieldZ)) ++ ['\n']))
      = [] :: splitNl ((joinNl (renderFieldZ f0 :: fs0.map renderFieldZ)) ++ ['\n'])
      from by simp [splitNl]]
    rw [hsplit]
    rw [show zodLoop ([] :: ((renderFieldZ f0 :: fs0.map renderFieldZ) ++ [[]]))
        none [] []
      = zodLoop ((renderFieldZ f0 :: fs0.map renderFieldZ) ++ [[]]) (some []) [] []
      from by simp [zodLoop, jsTrim, jsTrimL, jsTrimR]]
    rw [show renderFieldZ f0 :: fs0.map renderFieldZ = (f0 :: fs0).map renderFieldZ
      from by simp]
    rw [zodLoop_render (f0 :: fs0) (some []) [] [] hwf hnd (by simp)]
    constructor
    · simp [expectedZodProps_fst]
    · simp

/-- Witness for C2 at a concrete three-field declaration (one plain
required field, one optional field, one bare field). -/
theorem spec_C2_witness :
    ((ZodToSwagger.convert (asString (renderZodDecl (strL "createUserSchema")
        wzFields))).properties.map (fun ps => ps.map Prod.fst))
      = some [strL "name", strL "email", strL "age"]
    ∧ (ZodToSwagger.convert (asString (renderZodDecl (strL "createUserSchema")
        wzFields))).required = some [strL "name", strL "age"] := by
  have h := spec_C2 (strL "createUserSchema") wzFields (by decide) (by decide) (by decide)
  refine ⟨?_, ?_⟩
  · rw [h.1]; rfl
  · rw [h.2]; rfl

/-! ## Claim C3: description precedence -/

theorem zod_pipeline (N : List Char) (fields : List ZodField)
    (hN : goodIdent N = true) (hwf : ∀ f ∈ fields, zodFieldWF f = true)
    (hnd : (fields.map ZodField.name).Nodup) :
    (ZodToSwagger.convert (asString (renderZodDecl N fields))).properties
      = some (expectedZodProps (some []) fields) := by
  rw [convert_render N fields]
  rw [parseZodObject_capture _ _ (braceCapture_render N fields hN hwf)]
  cases hfs : fields with
  | nil => rfl
  | cons f0 fs0 =>
    rw [hfs] at hwf hnd
    have hchars : ∀ l ∈ (renderFieldZ f0 :: fs0.map renderFieldZ), ∀ c ∈ l, c ≠ '\n' := by
      intro l hl c hc
      simp only [List.mem_cons, List.mem_map] at hl
      rcases hl with rfl | ⟨g, hg, rfl⟩
      · exact (renderFieldZ_chars f0 (hwf f0 (by simp)) c hc).1
      · exact (renderFieldZ_chars g (hwf g (by simp [hg])) c hc).1
    have hsplit := splitNl_joinNl (fs0.map renderFieldZ) (renderFieldZ f0) hchars
    rw [show ((f0 :: fs0).map renderFieldZ) = renderFieldZ f0 :: fs0.map renderFieldZ
      from by simp]
    rw [show splitNl ('\n' :: ((joinNl (renderFieldZ f0 :: fs0.map renderFieldZ)) ++ ['\n']))
      = [] :: splitNl ((joinNl (renderFieldZ f0 :: fs0.map renderFieldZ)) ++ ['\n'])
      from by simp [splitNl]]
    rw [hsplit]
    rw [show zodLoop ([] :: ((renderFieldZ f0 :: fs0.map renderFieldZ) ++ [[]]))
        none [] []
      = zodLoop ((renderFieldZ f0 :: fs0.map renderFieldZ) ++ [[]]) (some []) [] []
      from by simp [zodLoop, jsTrim, jsTrimL, jsTrimR]]
    rw [show renderFieldZ f0 :: fs0.map renderFieldZ = (f0 :: fs0).map renderFieldZ
      from by simp]
    rw [zodLoop_render (f0 :: fs0) (some []) [] [] hwf hnd (by simp)]
    simp

theorem truthy_mk (d : List Char) (h : d ≠ []) : truthyS (some (asString d)) = true := by
  simp only [truthyS, asString, Bool.not_eq_true']
  cases hx : (String.mk d == "")
  · rfl
  · exfalso
    have := eq_of_beq hx
    apply h
    have : d = ("" : String).data := congrArg String.data this
    simpa using this

/-- Counterexample for C3 as stated: in `exC3` the field `name` carries
both a documentation comment on the line above and a trailing same-line
comment; the claimed precedence picks the documentation comment, but the
converter assigns the trailing comment text. -/
theorem spec_C3_counterexample :
    (ZodToSwagger.convert exC3).properties
      = some [(strL "name",
          { type := "string", format := none, minimum := none,
            description := some "inline note", items := none })]
    ∧ ("inline note" : String) ≠ "Doc comment" :=
  ⟨rfl, by decide⟩

/-- Claim C3 as amended: the description of every field of a well-formed
declaration is computed by `zodMkProperty` from that field's own modifier
chain, its rendered line and the raw previous line (first conjunct), and
the per-field choice follows this precedence, first truthy match winning:
(1) the trailing call-style `.describe` argument, (2) the trailing
same-line comment (trimmed; only when nonempty), (3) the documentation
comment on the preceding line, (4) the non-documentation block comment on
the preceding line, (5) none.  The Joi dialect follows the same order
with `.description` in place of `.describe` and without the
block-comment step. -/
theorem spec_C3_amended :
    (∀ (N : List Char) (fields : List ZodField),
      goodIdent N = true → (∀ f ∈ fields, zodFieldWF f = true) →
      (fields.map ZodField.name).Nodup →
      (ZodToSwagger.convert (asString (renderZodDecl N fields))).properties
        = some (expectedZodProps (some []) fields))
    ∧ (∀ bt mods tline prev d, findDescribe mods = some d → d ≠ [] →
        (zodMkProperty bt mods tline prev).description = some (asString d))
    ∧ (∀ bt mods tline prev c, findDescribe mods = none → findInline tline = some c →
        jsTrim c ≠ [] →
        (zodMkProperty bt mods tline prev).description = some (asString (jsTrim c)))
    ∧ (∀ bt mods tline pl j, findDescribe mods = none → findInline tline = none →
        findJsdoc (jsTrim pl) = some j →
        (zodMkProperty bt mods tline (some pl)).description = some (asString j))
    ∧ (∀ bt mods tline pl b, findDescribe mods = none → findInline tline = none →
        findJsdoc (jsTrim pl) = none → findBlock (jsTrim pl) = some b →
        (zodMkProperty bt mods tline (some pl)).description = some (asString b))
    ∧ (∀ bt mods tline pl, findDescribe mods = none → findInline tline = none →
        findJsdoc (jsTrim pl) = none → findBlock (jsTrim pl) = none →
        (zodMkProperty bt mods tline (some pl)).description = none)
    ∧ (∀ bt mods tline, findDescribe mods = none → findInline tline = none →
        (zodMkProperty bt mods tline none).description = none)
    ∧ (∀ bt mods tline prev d, findJoiDescription mods = some d → d ≠ [] →
        (joiMkProperty bt mods tline prev).description = some (asString d))
    ∧ (∀ bt mods tline prev c, findJoiDescription mods = none → findInline tline = some c →
        jsTrim c ≠ [] →
        (joiMkProperty bt mods tline prev).description = some (asString (jsTrim c)))
    ∧ (∀ bt mods tline pl j, findJoiDescription mods = none → findInline tline = none →
        findJsdoc (jsTrim pl) = some j →
        (joiMkProperty bt mods tline (some pl)).description = some (asString j))
    ∧ (∀ bt mods tline pl, findJoiDescription mods = none → findInline tline = none →
        findJsdoc (jsTrim pl) = none →
        (joiMkProperty bt mods tline (some pl)).description = none)
    ∧ (∀ bt mods tline, findJoiDescription mods = none → findInline tline = none →
        (joiMkProperty bt mods tline none).description = none) := by
  refine ⟨?_, ?_, ?_, ?_, ?_, ?_, ?_, ?_, ?_, ?_, ?_, ?_⟩
  · exact zod_pipeline
  · intro bt mods tline prev d hd hne
    have ht := truthy_mk d hne
    cases hi : findInline tline with
    | none =>
      cases prev with
      | none => simp [zodMkProperty, zodPropertyDescription, hd, hi]
      | some pl => simp [zodMkProperty, zodPropertyDescription, hd, hi, ht]
    | some c =>
      cases prev with
      | none => simp [zodMkProperty, zodPropertyDescription, hd, hi, ht]
      | some pl => simp [zodMkProperty, zodPropertyDescription, hd, hi, ht]
  · intro bt mods tline prev c hd hi hne
    have hne' : ¬(asString (jsTrim c) = "") := by
      intro e
      apply hne
      have hdata := congrArg String.data e
      simpa [asString] using hdata
    cases prev with
    | none => simp [zodMkProperty, zodPropertyDescription, hd, hi, truthyS]
    | some pl => simp [zodMkProperty, zodPropertyDescription, hd, hi, truthyS, hne']
  · intro bt mods tline pl j hd hi hj
    simp [zodMkProperty, zodPropertyDescription, hd, hi, hj, truthyS]
  · intro bt mods tline pl b hd hi hj hb
    simp [zodMkProperty, zodPropertyDescription, hd, hi, hj, hb, truthyS]
  · intro bt mods tline pl hd hi hj hb
    simp [zodMkProperty, zodPropertyDescription, hd, hi, hj, hb, truthyS]
  · intro bt mods tline hd hi
    simp [zodMkProperty, zodPropertyDescription, hd, hi]
  · intro bt mods tline prev d hd hne
    have ht := truthy_mk d hne
    cases hi : findInline tline with
    | none =>
      cases prev with
      | none => simp [joiMkProperty, joiPropertyDescription, hd, hi]
      | some pl => simp [joiMkProperty, joiPropertyDescription, hd, hi, ht]
    | some c =>
      cases prev with
      | none => simp [joiMkProperty, joiPropertyDescription, hd, hi, ht]
      | some pl => simp [joiMkProperty, joiPropertyDescription, hd, hi, ht]
  · intro bt mods tline prev c hd hi hne
    have hne' : ¬(asString (jsTrim c) = "") := by
      intro e
      apply hne
      have hdata := congrArg String.data e
      simpa [asString] using hdata
    cases prev with
    | none => simp [joiMkProperty, joiPropertyDescription, hd, hi, truthyS]
    | some pl => simp [joiMkProperty, joiPropertyDescription, hd, hi, truthyS, hne']
  · intro bt mods tline pl j hd hi hj
    simp [joiMkProperty, joiPropertyDescription, hd, hi, hj, truthyS]
  · intro bt mods tline pl hd hi hj
    simp [joiMkProperty, joiPropertyDescription, hd, hi, hj, truthyS]
  · intro bt mods tline hd hi
    simp [joiMkProperty, joiPropertyDescription, hd, hi]

/-- Witness for C3 (amended): the pipeline conjunct at a concrete
one-field declaration, and the describe-wins conjunct at a concrete
modifier chain. -/
theorem spec_C3_witness :
    (ZodToSwagger.convert (asString (renderZodDecl (strL "s") c3wFields))).properties
      = some (expectedZodProps (some []) c3wFields)
    ∧ (zodMkProperty (strL "string") (strL ".describe(\x27User name\x27)")
        (strL "x") none).description = some (asString (strL "User name")) :=
  ⟨spec_C3_amended.1 (strL "s") c3wFields (by decide) (by decide) (by decide),
   spec_C3_amended.2.1 (strL "string") (strL ".describe(\x27User name\x27)") (strL "x")
     none (strL "User name") (by rfl) (by decide)⟩
